import Mathlib

set_option maxRecDepth 40000

/-!
Verification development for the Woodstock film festival calendar generator
(`make_calendar.py`, `enhanced_make_calendar.py`).

Python strings are modelled as lists of characters (`Str`), Python `datetime`
values as a record of calendar fields (`DateTime`), and event dictionaries as
records with the six fields the pipeline reads and writes.  All definitions
are translated from the source; modelling notes appear next to each
definition.
-/

namespace WFF

/-- Python `str` is modelled as a list of characters. -/
abbrev Str := List Char

/-- Convenience injection from Lean string literals. -/
def S (s : String) : Str := s.toList

/-- Whitespace characters recognised by Python `str.strip` / `\s`
(the ASCII subset; every string handled by this program uses only these). -/
def isSpaceChar (c : Char) : Bool :=
  c == ' ' || c == '\t' || c == '\n' || c == '\r' || c == '\x0b' || c == '\x0c'

/-- Python `str.lstrip()` (no argument: strip whitespace on the left). -/
def ltrim (s : Str) : Str := s.dropWhile isSpaceChar

/-- Python `str.rstrip()` on the right, via reversal. -/
def rtrim (s : Str) : Str := (ltrim s.reverse).reverse

/-- Python `str.strip()`. -/
def trim (s : Str) : Str := rtrim (ltrim s)

/-- Python `str.strip(chars)`: strip any of the given characters from both ends. -/
def trimSet (cs : List Char) (s : Str) : Str :=
  ((s.dropWhile (fun c => cs.contains c)).reverse.dropWhile
    (fun c => cs.contains c)).reverse

/-- ASCII lower-casing; Python `str.lower()` restricted to ASCII, which covers
every character on which the proofs below depend. -/
def lowerChar (c : Char) : Char :=
  if 'A' ≤ c ∧ c ≤ 'Z' then Char.ofNat (c.toNat + 32) else c

/-- Python `str.lower()` (ASCII fragment). -/
def lowerStr (s : Str) : Str := s.map lowerChar

theorem length_dropWhile_le (p : Char → Bool) (l : Str) :
    (l.dropWhile p).length ≤ l.length := by
  induction l with
  | nil => simp
  | cons c rest ih =>
    by_cases h : p c
    · simp only [List.dropWhile, h]
      exact Nat.le_succ_of_le ih
    · simp [List.dropWhile, h]

/-- Fuel-driven loop of `collapseWs`; the fuel is the string length, which
always suffices because every step consumes at least one character. -/
def collapseWsGo : Nat → Str → Str
  | 0, _ => []
  | _ + 1, [] => []
  | fuel + 1, c :: rest =>
    if isSpaceChar c then ' ' :: collapseWsGo fuel (rest.dropWhile isSpaceChar)
    else c :: collapseWsGo fuel rest

/-- Python `re.sub(r'\s+', ' ', s)`: every maximal whitespace run becomes one
space. -/
def collapseWs (s : Str) : Str := collapseWsGo s.length s

/-- Decimal digits of a natural number, zero-padded on the left to the given
width (Python `"%0*d"` format). -/
def padNat (width n : Nat) : Str :=
  let ds := Nat.toDigits 10 n
  List.replicate (width - ds.length) '0' ++ ds

/-- Python `datetime` restricted to the fields this program uses (seconds and
microseconds are always zero in every datetime the pipeline constructs). -/
structure DateTime where
  year : Nat
  month : Nat
  day : Nat
  hour : Nat
  minute : Nat
deriving DecidableEq, Repr

/-- Chronological order on datetimes (lexicographic on the calendar fields,
exactly how Python compares `datetime` values). -/
def DateTime.le (a b : DateTime) : Prop :=
  a.year < b.year ∨ (a.year = b.year ∧
    (a.month < b.month ∨ (a.month = b.month ∧
      (a.day < b.day ∨ (a.day = b.day ∧
        (a.hour < b.hour ∨ (a.hour = b.hour ∧ a.minute ≤ b.minute)))))))

instance : DecidableRel DateTime.le := fun a b =>
  inferInstanceAs (Decidable (a.year < b.year ∨ (a.year = b.year ∧
    (a.month < b.month ∨ (a.month = b.month ∧
      (a.day < b.day ∨ (a.day = b.day ∧
        (a.hour < b.hour ∨ (a.hour = b.hour ∧ a.minute ≤ b.minute)))))))))

/-- Python `datetime.isoformat()`: `YYYY-MM-DDTHH:MM:SS` (seconds always 0
here).  This rendering is injective on the datetimes the program builds, so
using it inside identity keys is equivalent to using the datetime itself. -/
def isoformat (d : DateTime) : Str :=
  padNat 4 d.year ++ '-' :: padNat 2 d.month ++ '-' :: padNat 2 d.day ++
    'T' :: padNat 2 d.hour ++ ':' :: padNat 2 d.minute ++ ':' :: S "00"

/-- Python `start.strftime('%Y%m%dT%H%M%S')` as used in `_generate_uid`. -/
def compactFormat (d : DateTime) : Str :=
  padNat 4 d.year ++ padNat 2 d.month ++ padNat 2 d.day ++
    'T' :: padNat 2 d.hour ++ padNat 2 d.minute ++ S "00"

/-- Leap-year rule of the Gregorian calendar (Python `calendar.isleap`). -/
def isLeap (y : Nat) : Bool :=
  y % 4 == 0 && (y % 100 != 0 || y % 400 == 0)

/-- Days in a month, as Python `datetime` arithmetic uses. -/
def daysInMonth (y m : Nat) : Nat :=
  if m = 2 then (if isLeap y then 29 else 28)
  else if m = 4 ∨ m = 6 ∨ m = 9 ∨ m = 11 then 30
  else 31

/-- Advance a datetime by one day (used to model `timedelta` addition). -/
def nextDay (d : DateTime) : DateTime :=
  if d.day < daysInMonth d.year d.month then { d with day := d.day + 1 }
  else if d.month < 12 then { d with day := 1, month := d.month + 1 }
  else { d with day := 1, month := 1, year := d.year + 1 }

/-- Advance a datetime by one hour. -/
def nextHour (d : DateTime) : DateTime :=
  if d.hour < 23 then { d with hour := d.hour + 1 }
  else nextDay { d with hour := 0 }

/-- Python `start + timedelta(hours=n)` on the datetimes the program uses. -/
def addHours : Nat → DateTime → DateTime
  | 0, d => d
  | n + 1, d => addHours n (nextHour d)

/-- Constant `DEFAULT_DURATION_HOURS = 2` from the source. -/
def DEFAULT_DURATION_HOURS : Nat := 2

/-- Constant `YEAR = 2025` from the source. -/
def YEAR : Nat := 2025

/-- One event dictionary: the six keys every candidate and every registry
record carries in the source (`title`, `start`, `venue`, `description`,
`url`, `source_url`). -/
structure EventRecord where
  title : Str
  start : DateTime
  venue : Str
  description : Str
  url : Str
  source_url : Str
deriving DecidableEq, Repr

/-- First status marker recognised in `_split_title_prefixes` (the standby
marker).  The source file stores the emoji as this four-character sequence;
the model uses exactly the characters found in the file. -/
def standbyMarker : Str := ['ð', 'Ÿ', '«', '·']

/-- Second status marker recognised in `_split_title_prefixes` (the ticketed
marker), again exactly the character sequence present in the source file. -/
def ticketedMarker : Str := ['ð', 'Ÿ', 'Ž', 'Ÿ', 'ï', '¸']

/-- Fuel-driven loop of `_split_title_prefixes`: repeatedly consume a known
leading status marker (trying the standby marker first, as the source's
`for prefix in known_prefixes` does), left-stripping after each removal.
Each iteration removes at least one character, so fuel equal to the string
length always suffices. -/
def splitLoopGo : Nat → Str → List Str × Str
  | 0, remaining => ([], remaining)
  | fuel + 1, remaining =>
    if standbyMarker.isPrefixOf remaining then
      let r := splitLoopGo fuel (ltrim (remaining.drop standbyMarker.length))
      (standbyMarker :: r.1, r.2)
    else if ticketedMarker.isPrefixOf remaining then
      let r := splitLoopGo fuel (ltrim (remaining.drop ticketedMarker.length))
      (ticketedMarker :: r.1, r.2)
    else ([], remaining)

/-- The marker-consuming loop at its natural fuel. -/
def splitLoop (remaining : Str) : List Str × Str :=
  splitLoopGo remaining.length remaining

/-- `_split_title_prefixes`: return the leading status markers and the core
title text. -/
def splitTitleStatuses (title : Str) : List Str × Str :=
  if title.isEmpty then ([], [])
  else splitLoop (trim title)

/-- `_normalize_title_for_id`: collapse whitespace in the core title, strip,
lower-case. -/
def normalizeTitleForId (title : Str) : Str :=
  lowerStr (trim (collapseWs (splitTitleStatuses title).2))

/-- Status-marker order used when recomposing a merged title
(`status_order` in `_merge_event_records`). -/
def statusOrder : List Str := [standbyMarker, ticketedMarker]

/-- Union of the two status-marker lists, in the fixed canonical order
(the list comprehension over `status_order` in `_merge_event_records`). -/
def mergedStatuses (es ns : List Str) : List Str :=
  statusOrder.filter (fun s => s ∈ es || s ∈ ns)

/-- Python `max(candidates, key=len)`: first element of maximal length. -/
def maxByLen (x : Str) (xs : List Str) : Str :=
  xs.foldl (fun acc y => if y.length > acc.length then y else acc) x

/-- Merged base title: the longer of the two non-empty base titles
(`max(base_candidates, key=len)`), or empty if both are empty. -/
def mergedBase (eb nb : Str) : Str :=
  match ([eb, nb].filter (fun t => !t.isEmpty)) with
  | [] => []
  | c :: cs => maxByLen c cs

/-- Python `' '.join(parts)`. -/
def joinSpace (parts : List Str) : Str := List.intercalate [' '] parts

/-- Title produced by the title-merging block of `_merge_event_records`:
the value of `existing['title']` after the block runs, given the existing
and the new title. -/
def mergeTitle (existingTitle newTitle : Str) : Str :=
  let es := (splitTitleStatuses existingTitle).1
  let eb := (splitTitleStatuses existingTitle).2
  let ns := (splitTitleStatuses newTitle).1
  let nb := (splitTitleStatuses newTitle).2
  let ms := mergedStatuses es ns
  let mb := mergedBase eb nb
  if !mb.isEmpty || !ms.isEmpty then
    let assembled := if !ms.isEmpty then trim (joinSpace ms ++ ' ' :: mb) else mb
    if !assembled.isEmpty && assembled ≠ existingTitle then assembled
    else existingTitle
  else existingTitle

/-- Venue placeholder set from `_merge_event_records`
(`existing_venue in ('', 'TBD', 'Unknown')` combined with the preceding
`not existing_venue` test, which the empty string already covers). -/
def venuePlaceholder (v : Str) : Bool :=
  v.isEmpty || v == S "TBD" || v == S "Unknown"

/-- Python substring containment `pat in s`. -/
def isSubstr (pat : Str) : Str → Bool
  | [] => pat.isEmpty
  | c :: rest => pat.isPrefixOf (c :: rest) || isSubstr pat rest

/-- Python `'eventId=' in url`. -/
def hasEventId (url : Str) : Bool := isSubstr (S "eventId=") url

/-- `_merge_event_records`: fold `new` into `existing` field by field,
returning the `changed` flag and the updated record.  The source mutates the
existing dictionary in place and touches only the five fields below; the
model returns the resulting record. -/
def mergeEventRecords (existing new : EventRecord) : Bool × EventRecord :=
  let t := mergeTitle existing.title new.title
  let titleChanged := t ≠ existing.title
  let descChanged :=
    !new.description.isEmpty &&
      new.description.length > existing.description.length
  let d := if descChanged then new.description else existing.description
  let venueChanged :=
    !new.venue.isEmpty && venuePlaceholder existing.venue &&
      new.venue ≠ existing.venue
  let v := if venueChanged then new.venue else existing.venue
  let urlChanged :=
    !new.url.isEmpty &&
      (existing.url.isEmpty || (hasEventId new.url && !hasEventId existing.url)) &&
      new.url ≠ existing.url
  let u := if urlChanged then new.url else existing.url
  let srcChanged := existing.source_url.isEmpty && !new.source_url.isEmpty
  let su := if srcChanged then new.source_url else existing.source_url
  (titleChanged || descChanged || venueChanged || urlChanged || srcChanged,
   { existing with title := t, description := d, venue := v, url := u,
                   source_url := su })

/-- Identity key of `_create_event_id`.  The source joins the three parts
with a separator and MD5-hashes the result; the model keeps the parts
themselves, since the digest serves only as a collision-free dictionary key
(the hash and the join are modelled as the injection into this triple). -/
structure IdKey where
  normTitle : Str
  start : DateTime
  venueKey : Str
deriving DecidableEq, Repr

/-- `_create_event_id`: key from normalised title, start timestamp, and
stripped lower-cased venue. -/
def createEventId (e : EventRecord) : IdKey :=
  { normTitle := normalizeTitleForId e.title
    start := e.start
    venueKey := lowerStr (trim e.venue) }

/-- The per-run registry (`self.event_registry`), a dictionary keyed by
identity keys. -/
abbrev Registry := List (IdKey × EventRecord)

/-- Dictionary lookup in the registry. -/
def regFind : Registry → IdKey → Option EventRecord
  | [], _ => none
  | (k, r) :: rest, key => if k = key then some r else regFind rest key

/-- Dictionary update (replace the record stored under the given key). -/
def regUpdate : Registry → IdKey → EventRecord → Registry
  | [], _, _ => []
  | (k, r) :: rest, key, v =>
    if k = key then (k, v) :: rest else (k, r) :: regUpdate rest key v

/-- `_register_event`: returns `(is_new, stored_event, changed)` plus the
registry after the call (the source mutates `self.event_registry`). -/
def registerEvent (reg : Registry) (c : EventRecord) :
    (Bool × EventRecord × Bool) × Registry :=
  let key := createEventId c
  match regFind reg key with
  | none => ((true, c, false), (key, c) :: reg)
  | some existing =>
    let m := mergeEventRecords existing c
    ((false, m.2, m.1), regUpdate reg key m.2)

/-- Authoritative record stored in the registry after registering `a` and
then `b`, starting from an empty registry. -/
def authoritativeAfter (a b : EventRecord) : EventRecord :=
  ((registerEvent (registerEvent [] a).2 b).1).2.1

/-! SHA-256, as used by `_generate_uid` (`hashlib.sha256(...).hexdigest()`).
Words are naturals reduced modulo 2^32. -/

/-- Reduce to a 32-bit word. -/
def w32 (n : Nat) : Nat := n % 4294967296

/-- Rotate a 32-bit word right by `n` bits. -/
def rotr (n x : Nat) : Nat := w32 (x / 2 ^ n + x % 2 ^ n * 2 ^ (32 - n))

/-- Logical shift right. -/
def shr (n x : Nat) : Nat := x / 2 ^ n

/-- SHA-256 round constants (decimal). -/
def sha256K : List Nat :=
  [1116352408, 1899447441, 3049323471, 3921009573, 961987163,
   1508970993, 2453635748, 2870763221, 3624381080, 310598401,
   607225278, 1426881987, 1925078388, 2162078206, 2614888103,
   3248222580, 3835390401, 4022224774, 264347078, 604807628,
   770255983, 1249150122, 1555081692, 1996064986, 2554220882,
   2821834349, 2952996808, 3210313671, 3336571891, 3584528711,
   113926993, 338241895, 666307205, 773529912, 1294757372,
   1396182291, 1695183700, 1986661051, 2177026350, 2456956037,
   2730485921, 2820302411, 3259730800, 3345764771, 3516065817,
   3600352804, 4094571909, 275423344, 430227734, 506948616,
   659060556, 883997877, 958139571, 1322822218, 1537002063,
   1747873779, 1955562222, 2024104815, 2227730452, 2361852424,
   2428436474, 2756734187, 3204031479, 3329325298]

/-- SHA-256 initial hash state (decimal). -/
def sha256H0 : List Nat :=
  [1779033703, 3144134277, 1013904242, 2773480762,
   1359893119, 2600822924, 528734635, 1541459225]

/-- Big-endian packing of bytes into 32-bit words. -/
def bytesToWords : List Nat → List Nat
  | b0 :: b1 :: b2 :: b3 :: rest =>
    (((b0 * 256 + b1) * 256 + b2) * 256 + b3) :: bytesToWords rest
  | _ => []

/-- Message-schedule extension: append `fuel` further words. -/
def sched (w : List Nat) : Nat → List Nat
  | 0 => w
  | fuel + 1 =>
    let len := w.length
    let x15 := w.getD (len - 15) 0
    let x2 := w.getD (len - 2) 0
    let s0 := Nat.xor (Nat.xor (rotr 7 x15) (rotr 18 x15)) (shr 3 x15)
    let s1 := Nat.xor (Nat.xor (rotr 17 x2) (rotr 19 x2)) (shr 10 x2)
    sched (w ++ [w32 (w.getD (len - 16) 0 + s0 + w.getD (len - 7) 0 + s1)]) fuel

/-- One SHA-256 compression round. -/
def roundStep (st : List Nat) (kw : Nat × Nat) : List Nat :=
  let a := st.getD 0 0; let b := st.getD 1 0; let c := st.getD 2 0
  let d := st.getD 3 0; let e := st.getD 4 0; let f := st.getD 5 0
  let g := st.getD 6 0; let h := st.getD 7 0
  let bigS1 := Nat.xor (Nat.xor (rotr 6 e) (rotr 11 e)) (rotr 25 e)
  let ch := Nat.xor (Nat.land e f) (Nat.land (Nat.xor e 4294967295) g)
  let t1 := w32 (h + bigS1 + ch + kw.1 + kw.2)
  let bigS0 := Nat.xor (Nat.xor (rotr 2 a) (rotr 13 a)) (rotr 22 a)
  let maj := Nat.xor (Nat.xor (Nat.land a b) (Nat.land a c)) (Nat.land b c)
  let t2 := w32 (bigS0 + maj)
  [w32 (t1 + t2), a, b, c, w32 (d + t1), e, f, g]

/-- Process one 64-byte block. -/
def sha256Block (h : List Nat) (block : List Nat) : List Nat :=
  let ws := sched (bytesToWords block) 48
  let st := (sha256K.zip ws).foldl roundStep h
  (h.zip st).map (fun p => w32 (p.1 + p.2))

/-- Fuel-driven splitting into 64-byte blocks. -/
def chunks64Go : Nat → List Nat → List (List Nat)
  | 0, _ => []
  | _ + 1, [] => []
  | fuel + 1, b :: rest =>
    (b :: rest).take 64 :: chunks64Go fuel ((b :: rest).drop 64)

/-- Split the padded message into 64-byte blocks. -/
def chunks64 (l : List Nat) : List (List Nat) := chunks64Go l.length l

/-- SHA-256 padding: append `0x80`, zeros, and the 64-bit big-endian bit
length. -/
def padMsg (m : List Nat) : List Nat :=
  let len := m.length
  let bits := len * 8
  m ++ 0x80 :: List.replicate ((119 - len % 64) % 64) 0 ++
    [bits / 2 ^ 56 % 256, bits / 2 ^ 48 % 256, bits / 2 ^ 40 % 256,
     bits / 2 ^ 32 % 256, bits / 2 ^ 24 % 256, bits / 2 ^ 16 % 256,
     bits / 2 ^ 8 % 256, bits % 256]

/-- Lower-case hexadecimal digit. -/
def hexDigit (n : Nat) : Char :=
  if n < 10 then Char.ofNat (48 + n) else Char.ofNat (87 + n)

/-- Hex rendering of a 32-bit word (8 digits). -/
def wordHex (w : Nat) : Str :=
  [hexDigit (w / 2 ^ 28 % 16), hexDigit (w / 2 ^ 24 % 16),
   hexDigit (w / 2 ^ 20 % 16), hexDigit (w / 2 ^ 16 % 16),
   hexDigit (w / 2 ^ 12 % 16), hexDigit (w / 2 ^ 8 % 16),
   hexDigit (w / 2 ^ 4 % 16), hexDigit (w % 16)]

/-- `hashlib.sha256(bytes).hexdigest()`. -/
def sha256hex (msg : List Nat) : Str :=
  (((chunks64 (padMsg msg)).foldl sha256Block sha256H0).map wordHex).flatten

/-- UTF-8 encoding of one character (Python `str.encode()`). -/
def utf8Char (c : Char) : List Nat :=
  let n := c.toNat
  if n < 0x80 then [n]
  else if n < 0x800 then [0xc0 + n / 64, 0x80 + n % 64]
  else if n < 0x10000 then
    [0xe0 + n / 4096, 0x80 + n / 64 % 64, 0x80 + n % 64]
  else
    [0xf0 + n / 262144, 0x80 + n / 4096 % 64, 0x80 + n / 64 % 64,
     0x80 + n % 64]

/-- UTF-8 encoding of a string. -/
def utf8 (s : Str) : List Nat := s.foldr (fun c acc => utf8Char c ++ acc) []

/-- Slug-character test for `re.sub(r'[^a-z0-9]+', '-', ...)`. -/
def isSlugChar (c : Char) : Bool :=
  ('a' ≤ c && c ≤ 'z') || ('0' ≤ c && c ≤ '9')

/-- Fuel-driven loop replacing every maximal run of non-slug characters by
one dash. -/
def slugCollapseGo : Nat → Str → Str
  | 0, _ => []
  | _ + 1, [] => []
  | fuel + 1, c :: rest =>
    if isSlugChar c then c :: slugCollapseGo fuel rest
    else '-' :: slugCollapseGo fuel (rest.dropWhile (fun x => !isSlugChar x))

/-- Replace every maximal run of non-slug characters by one dash
(`re.sub(r'[^a-z0-9]+', '-', s)`). -/
def slugCollapse (s : Str) : Str := slugCollapseGo s.length s

/-- Python `str.strip('-')`. -/
def stripDashes (s : Str) : Str :=
  ((s.dropWhile (· == '-')).reverse.dropWhile (· == '-')).reverse

/-- `_generate_uid`: slug of the lower-cased title (30 chars max), compact
start timestamp, and the first 16 hex digits of the SHA-256 of
`title|start.isoformat()|venue`, joined with dashes and suffixed with
`@wff2025`.  Identical in both source files. -/
def generateUid (e : EventRecord) : Str :=
  let base := e.title ++ '|' :: isoformat e.start ++ '|' :: e.venue
  let hashPart := (sha256hex (utf8 base)).take 16
  let slug := (stripDashes (slugCollapse (lowerStr e.title))).take 30
  slug ++ '-' :: compactFormat e.start ++ '-' :: hashPart ++ S "@wff2025"

/-! Output synchronizer (`generate_ics_calendar`, `_event_signature_from_data`,
`_event_signature_from_component`, `_load_existing_event_metadata`,
`run_scraping_job`).  The serialized feed is modelled as the list of its
entries; each entry carries the fields the ICS component stores (an absent
optional property is the empty string, matching the loader's `normalize`,
which maps missing properties to `''`). -/

/-- One VEVENT of the published feed. -/
structure FeedEntry where
  uid : Str
  title : Str
  dtstart : DateTime
  dtend : DateTime
  venue : Str
  description : Str
  url : Str
  dtstamp : DateTime
deriving DecidableEq, Repr

/-- Stored per-UID metadata from the prior feed
(`_load_existing_event_metadata` values: a content signature and the stored
DTSTAMP, which the loader leaves as `None` when the component has none). -/
structure MetaEntry where
  signature : Str
  dtstamp : Option DateTime
deriving DecidableEq, Repr

/-- `_event_signature_from_data`: deterministic join of the user-visible
fields of a record about to be serialized. -/
def signatureFromData (e : EventRecord) : Str :=
  List.intercalate ['|']
    [e.title, isoformat e.start,
     isoformat (addHours DEFAULT_DURATION_HOURS e.start),
     e.venue, e.description, e.url]

/-- `_event_signature_from_component`: the same join recomputed from a
previously published entry. -/
def signatureFromEntry (p : FeedEntry) : Str :=
  List.intercalate ['|']
    [p.title, isoformat p.dtstart, isoformat p.dtend, p.venue,
     p.description, p.url]

/-- Metadata stored for one previously published entry. -/
def metaOf (p : FeedEntry) : MetaEntry :=
  { signature := signatureFromEntry p, dtstamp := some p.dtstamp }

/-- `_load_existing_event_metadata`: walk the prior feed and store, per UID,
the recomputed signature and the stored DTSTAMP.  The source fills a
dictionary in walk order (later duplicates overwrite earlier ones); the
model reverses the association list so that first-match lookup returns the
last-written binding. -/
def loadMetadata (prior : List FeedEntry) : List (Str × MetaEntry) :=
  (prior.map (fun p => (p.uid, metaOf p))).reverse

/-- Dictionary lookup among stored metadata. -/
def metaFind : List (Str × MetaEntry) → Str → Option MetaEntry
  | [], _ => none
  | (k, v) :: rest, key => if k = key then some v else metaFind rest key

/-- The entry `generate_ics_calendar` emits for one record: DTSTAMP is the
stored one when the prior metadata holds this UID with an equal signature
and a present stored timestamp, and `now` otherwise. -/
def entryFor (meta : List (Str × MetaEntry)) (now : DateTime)
    (e : EventRecord) : FeedEntry :=
  let uid := generateUid e
  let sig := signatureFromData e
  let stamp :=
    match metaFind meta uid with
    | some m =>
      if m.signature = sig ∧ m.dtstamp.isSome then m.dtstamp.getD now else now
    | none => now
  { uid := uid, title := e.title, dtstart := e.start
    dtend := addHours DEFAULT_DURATION_HOURS e.start
    venue := e.venue, description := e.description, url := e.url
    dtstamp := stamp }

/-- `generate_ics_calendar`: serialize every record, deciding each DTSTAMP
against the prior metadata. -/
def generateEntries (events : List EventRecord)
    (meta : List (Str × MetaEntry)) (now : DateTime) : List FeedEntry :=
  events.map (entryFor meta now)

/-- `run_scraping_job`: with zero events the job logs an error and returns
`False` without writing; otherwise it writes the newly generated feed over
the output location and returns `True`.  The output location is modelled as
`Option (List FeedEntry)` (`none` meaning no previously written feed, which
is also how an unparsable prior feed behaves for metadata purposes). -/
def runScrapingJob (events : List EventRecord)
    (prior : Option (List FeedEntry)) (now : DateTime) :
    Bool × Option (List FeedEntry) :=
  if events.isEmpty then (false, prior)
  else
    (true,
     some (generateEntries events (loadMetadata (prior.getD [])) now))

/-- Comparison used by `enhanced_events.sort(key=lambda x: x['start'])`. -/
def startLE (a b : EventRecord) : Prop := DateTime.le a.start b.start

instance : DecidableRel startLE := fun a b =>
  inferInstanceAs (Decidable (DateTime.le a.start b.start))

/-- The final sort of `scrape_all_events` (identical in both source files):
Python `list.sort` is a stable sort by the start timestamp, and a stable
sort with respect to a total preorder has a unique result, so Mathlib's
insertion sort with the same comparison models it exactly. -/
def sortEvents (events : List EventRecord) : List EventRecord :=
  List.insertionSort startLE events

/-! Temporal normalizer (`_parse_datetime`).  The regular expressions of the
source are embedded as direct matchers over character lists; each matcher
recognises exactly the language of its pattern (in every pattern a greedy
quantifier is followed by a character it cannot consume, so maximal munch
coincides with backtracking semantics). -/

/-- ASCII letter ([A-Za-z]). -/
def isAsciiAlpha (c : Char) : Bool :=
  ('A' ≤ c && c ≤ 'Z') || ('a' ≤ c && c ≤ 'z')

/-- ASCII digit (\d restricted to ASCII; the inputs are ASCII). -/
def isDigitChar (c : Char) : Bool := '0' ≤ c && c ≤ '9'

/-- Word character for the \b boundary ([A-Za-z0-9_]). -/
def isWordChar (c : Char) : Bool := isAsciiAlpha c || isDigitChar c || c == '_'

/-- Boundary check after a time-zone abbreviation: end of string or a
non-word character. -/
def notWordAhead : Str → Bool
  | [] => true
  | c :: _ => !isWordChar c

/-- Length of the optional trailing dot of the \.? in the time-zone strip. -/
def tzDot : Str → Nat
  | '.' :: _ => 1
  | _ => 0

/-- Length of a match of E[DS]?T\b\.? starting here (boundary before is
checked by the caller); greedy alternatives EDT and EST are tried before
ET, as the regex engine does. -/
def tzAt (s : Str) : Option { n : Nat // 1 ≤ n } :=
  if (S "EDT").isPrefixOf s && notWordAhead (s.drop 3) then
    some ⟨3 + tzDot (s.drop 3), by omega⟩
  else if (S "EST").isPrefixOf s && notWordAhead (s.drop 3) then
    some ⟨3 + tzDot (s.drop 3), by omega⟩
  else if (S "ET").isPrefixOf s && notWordAhead (s.drop 2) then
    some ⟨2 + tzDot (s.drop 2), by omega⟩
  else none

/-- Fuel-driven scan for `re.sub(r'\bE[DS]?T\b\.?', '', s)`: `prevWord`
records whether the previous character of the original text is a word
character (for the leading \b).  Every step consumes at least one
character, so fuel equal to the string length suffices. -/
def stripTZGo : Nat → Bool → Str → Str
  | 0, _, _ => []
  | _ + 1, _, [] => []
  | fuel + 1, prevWord, c :: rest =>
    match (if prevWord then none else tzAt (c :: rest)) with
    | some n =>
      stripTZGo fuel (isWordChar ((c :: rest).getD (n.1 - 1) '.'))
        ((c :: rest).drop n.1)
    | none => c :: stripTZGo fuel (isWordChar c) rest

/-- The time-zone stripping substitution. -/
def stripTZ (s : Str) : Str := stripTZGo s.length false s

/-- Captured groups of one date pattern: month name, day digits, hour
digits, minute digits, meridiem letter. -/
structure Cap where
  mon : Str
  day : Str
  hourDigits : Str
  minDigits : Str
  mer : Char
deriving Repr

/-- Split off a maximal run satisfying the predicate. -/
def spanStr (p : Char → Bool) (s : Str) : Str × Str :=
  (s.takeWhile p, s.dropWhile p)

/-- Match \s+ (at least one whitespace character). -/
def matchSpaces1 : Str → Option Str
  | c :: rest => if isSpaceChar c then some (rest.dropWhile isSpaceChar) else none
  | [] => none

/-- Match [A-Za-z]{3} (exactly three letters). -/
def matchAlpha3 : Str → Option (Str × Str)
  | a :: b :: c :: rest =>
    if isAsciiAlpha a && isAsciiAlpha b && isAsciiAlpha c then
      some ([a, b, c], rest)
    else none
  | _ => none

/-- Match the time group \d{1,2}:\d{2}\s+[AP]M, returning hour digits,
minute digits and the meridiem letter. -/
def matchTime (s : Str) : Option (Str × Str × Char) :=
  let hd := spanStr isDigitChar s
  if hd.1.length = 1 ∨ hd.1.length = 2 then
    match hd.2 with
    | ':' :: m1 :: m2 :: r3 =>
      if isDigitChar m1 && isDigitChar m2 then
        match matchSpaces1 r3 with
        | some r4 =>
          match r4 with
          | p :: 'M' :: _ =>
            if p = 'A' ∨ p = 'P' then some (hd.1, [m1, m2], p) else none
          | _ => none
        | none => none
      else none
    | _ => none
  else none

/-- Shared tail `month \s+ day` of all four patterns; `sep` handles what
follows the day group. -/
def matchMonthDay (s : Str)
    (sep : Str → Option (Str × Str × Char)) : Option Cap :=
  (matchAlpha3 s).bind fun mr =>
  (matchSpaces1 mr.2).bind fun r1 =>
  let dd := spanStr isDigitChar r1
  if dd.1.length = 1 ∨ dd.1.length = 2 then
    (sep dd.2).map fun t =>
      { mon := mr.1, day := dd.1, hourDigits := t.1, minDigits := t.2.1
        mer := t.2.2 }
  else none

/-- After the day: `\s+at\s+` then the time (pattern 1). -/
def sepAt (s : Str) : Option (Str × Str × Char) :=
  (matchSpaces1 s).bind fun r =>
  match r with
  | 'a' :: 't' :: r2 => (matchSpaces1 r2).bind matchTime
  | _ => none

/-- After the day: `,\s+` then the time (patterns 2 to 4). -/
def sepComma (s : Str) : Option (Str × Str × Char) :=
  match s with
  | ',' :: r => (matchSpaces1 r).bind matchTime
  | _ => none

/-- Pattern 1, anchored: `^[A-Za-z]+,\s+([A-Za-z]{3})\s+(\d{1,2})\s+at\s+(time)`. -/
def capP1 (s : Str) : Option Cap :=
  let w := spanStr isAsciiAlpha s
  if w.1.isEmpty then none else
  match w.2 with
  | ',' :: r1 => (matchSpaces1 r1).bind fun r2 => matchMonthDay r2 sepAt
  | _ => none

/-- Pattern 2 core: `([A-Za-z]{3})\s+(\d{1,2}),\s+(time)` at one position. -/
def capP2core (s : Str) : Option Cap := matchMonthDay s sepComma

/-- Pattern 3, anchored: `^[A-Za-z]+,\s+([A-Za-z]{3})\s+(\d{1,2}),\s+(time)`. -/
def capP3 (s : Str) : Option Cap :=
  let w := spanStr isAsciiAlpha s
  if w.1.isEmpty then none else
  match w.2 with
  | ',' :: r1 => (matchSpaces1 r1).bind fun r2 => matchMonthDay r2 sepComma
  | _ => none

/-- Pattern 4, anchored: `^[A-Za-z]{3},\s+([A-Za-z]{3})\s+(\d{1,2}),\s+(time)`. -/
def capP4 (s : Str) : Option Cap :=
  (matchAlpha3 s).bind fun w =>
  match w.2 with
  | ',' :: r1 => (matchSpaces1 r1).bind fun r2 => matchMonthDay r2 sepComma
  | _ => none

/-- `re.search` for an unanchored pattern: try the matcher at every
position, leftmost match first. -/
def searchCap (m : Str → Option Cap) : Str → Option Cap
  | [] => m []
  | c :: rest =>
    match m (c :: rest) with
    | some r => some r
    | none => searchCap m rest

/-- Month abbreviation table of `_parse_datetime`. -/
def monthNum (m : Str) : Option Nat :=
  if m = S "Jan" then some 1 else if m = S "Feb" then some 2
  else if m = S "Mar" then some 3 else if m = S "Apr" then some 4
  else if m = S "May" then some 5 else if m = S "Jun" then some 6
  else if m = S "Jul" then some 7 else if m = S "Aug" then some 8
  else if m = S "Sep" then some 9 else if m = S "Oct" then some 10
  else if m = S "Nov" then some 11 else if m = S "Dec" then some 12
  else none

/-- Numeric value of a digit string (Python `int`). -/
def digitsToNat (ds : Str) : Nat :=
  ds.foldl (fun a c => a * 10 + (c.toNat - 48)) 0

/-- `datetime.strptime(f"{YEAR}-{month:02d}-{day:02d} {time}",
"%Y-%m-%d %I:%M %p")` applied to one set of captures: the month must be
known, `%I` requires an hour in 1..12, `%M` minutes below 60, and the
constructed date must exist in the calendar; any violation raises
`ValueError`, which the source turns into trying the next pattern. -/
def capToDate (cap : Cap) : Option DateTime :=
  match monthNum cap.mon with
  | none => none
  | some mo =>
    let dy := digitsToNat cap.day
    let h12 := digitsToNat cap.hourDigits
    let mi := digitsToNat cap.minDigits
    if 1 ≤ h12 ∧ h12 ≤ 12 ∧ mi ≤ 59 ∧ 1 ≤ dy ∧ dy ≤ daysInMonth YEAR mo then
      some
        { year := YEAR, month := mo, day := dy
          hour :=
            if cap.mer = 'P' then (if h12 = 12 then 12 else h12 + 12)
            else (if h12 = 12 then 0 else h12)
          minute := mi }
    else none

/-- `_parse_datetime`: clean the text (strip the time-zone abbreviation,
strip commas/spaces, strip whitespace), then try the four patterns in
order; a pattern whose captures fail month lookup or datetime construction
falls through to the next pattern. -/
def parseDatetime (dateText : Str) : Option DateTime :=
  if dateText.isEmpty then none
  else
    let s := trim (trimSet [',', ' '] (stripTZ dateText))
    match (capP1 s).bind capToDate with
    | some d => some d
    | none =>
      match (searchCap capP2core s).bind capToDate with
      | some d => some d
      | none =>
        match (capP3 s).bind capToDate with
        | some d => some d
        | none => (capP4 s).bind capToDate

/-! Comparator the specification claims for the published feed: ascending
start, ties broken by case-insensitive title comparison.  This definition
follows the wording of the specification (it exists to be compared with
`sortEvents`, which is translated from the source). -/

/-- Lexicographic comparison of character lists (case handled by the
caller). -/
def lexLeStr : Str → Str → Bool
  | [], _ => true
  | _ :: _, [] => false
  | a :: as_, b :: bs => a < b || (a = b && lexLeStr as_ bs)

/-- Adjacent-pair ordering the specification describes for the feed:
ascending by start; when two starts are equal, case-insensitive title
order. -/
def specPairLE (a b : EventRecord) : Bool :=
  decide (DateTime.le a.start b.start) &&
    (a.start != b.start || lexLeStr (lowerStr a.title) (lowerStr b.title))

/-- Ordering claimed by the specification, checked over adjacent pairs of
the output list. -/
def specSorted : List EventRecord → Bool
  | [] => true
  | [_] => true
  | a :: b :: rest => specPairLE a b && specSorted (b :: rest)

/-! Theorems. -/

instance : IsTotal EventRecord startLE :=
  ⟨fun a b => by unfold startLE DateTime.le; omega⟩

instance : IsTrans EventRecord startLE :=
  ⟨fun a b c hab hbc => by
    unfold startLE DateTime.le at *; omega⟩

/-- Claim C9: the date text `Wednesday, Oct 15 at 5:00 PM ET` with the fixed
reference year 2025 normalizes to 2025-10-15T17:00:00; the time-zone
abbreviation is stripped, surrounding punctuation trimmed, and the
reference year injected. -/
theorem c9_parse_scenario :
    parseDatetime (S "Wednesday, Oct 15 at 5:00 PM ET") =
      some { year := 2025, month := 10, day := 15, hour := 17, minute := 0 } := by
  decide

/-- Claim C8: a run whose pipeline produced zero authoritative records is
reported as failed (returns `false`) and leaves the previously written feed
untouched. -/
theorem c8_empty_run_fails_without_write :
    ∀ (prior : Option (List FeedEntry)) (now : DateTime),
      runScrapingJob [] prior now = (false, prior) := by
  intro prior now
  rfl

/-- Record builder used by concrete instances below. -/
def mkEv (t : String) (start : DateTime) (v d u su : String) : EventRecord :=
  { title := S t, start := start, venue := S v, description := S d
    url := S u, source_url := S su }

/-- Sample timestamp used by concrete instances below. -/
def sampleStart : DateTime :=
  { year := 2025, month := 10, day := 15, hour := 19, minute := 0 }

/-- Claim C5 (amended): the record keeps its venue whenever the stored venue
is neither empty nor one of the placeholder strings `TBD` / `Unknown`; the
venue is overwritten (with the candidate venue) exactly when the stored
venue is empty or a placeholder and the candidate venue is non-empty. -/
theorem c5_venue_first_writer_amended :
    ∀ e n : EventRecord,
      (venuePlaceholder e.venue = false →
        ((mergeEventRecords e n).2).venue = e.venue) ∧
      (venuePlaceholder e.venue = true → n.venue ≠ [] →
        ((mergeEventRecords e n).2).venue = n.venue) ∧
      (((mergeEventRecords e n).2).venue ≠ e.venue →
        venuePlaceholder e.venue = true ∧ n.venue ≠ []) := by
  intro e n
  by_cases h1 : n.venue.isEmpty <;>
    by_cases h2 : venuePlaceholder e.venue <;>
      by_cases h3 : n.venue = e.venue <;>
        simp_all [mergeEventRecords, List.isEmpty_iff]

/-- Witness for C5: a concrete merge where the stored venue `Colony` is not
a placeholder, so the candidate venue `Other Hall` does not replace it. -/
theorem c5_venue_first_writer_amended_witness :
    ((mergeEventRecords (mkEv "A" sampleStart "Colony" "" "" "")
        (mkEv "A" sampleStart "Other Hall" "" "" "")).2).venue = S "Colony" :=
  (c5_venue_first_writer_amended
      (mkEv "A" sampleStart "Colony" "" "" "")
      (mkEv "A" sampleStart "Other Hall" "" "" "")).1 (by decide)

/-- Counterexample for C5 as stated: both venues are non-empty (`TBD` and
`Main Hall`), yet the merge replaces the earlier-registered venue instead
of keeping it. -/
theorem c5_venue_counterexample :
    (mkEv "Film School Shorts" sampleStart "TBD" "" "" "").venue ≠ [] ∧
    (mkEv "Film School Shorts" sampleStart "Main Hall" "" "" "").venue ≠ [] ∧
    ((mergeEventRecords (mkEv "Film School Shorts" sampleStart "TBD" "" "" "")
        (mkEv "Film School Shorts" sampleStart "Main Hall" "" "" "")).2).venue
      = S "Main Hall" ∧
    ((mergeEventRecords (mkEv "Film School Shorts" sampleStart "TBD" "" "" "")
        (mkEv "Film School Shorts" sampleStart "Main Hall" "" "" "")).2).venue
      ≠ S "TBD" := by
  decide

/-- Claim C6 (amended): the feed identifier is a pure function of the full
composed title (status markers included), the start timestamp, and the
venue; it therefore does not depend on any other field nor on processing
order. -/
theorem c6_uid_pure_function_amended :
    ∀ r1 r2 : EventRecord, r1.title = r2.title → r1.start = r2.start →
      r1.venue = r2.venue → generateUid r1 = generateUid r2 := by
  intro r1 r2 ht hs hv
  simp only [generateUid, ht, hs, hv]

/-- Witness for C6: two records agreeing on title, start and venue but not
on description receive the same identifier. -/
theorem c6_uid_pure_function_amended_witness :
    generateUid (mkEv "Film X" sampleStart "Colony" "short" "" "") =
      generateUid (mkEv "Film X" sampleStart "Colony" "a longer text" "" "") :=
  c6_uid_pure_function_amended
    (mkEv "Film X" sampleStart "Colony" "short" "" "")
    (mkEv "Film X" sampleStart "Colony" "a longer text" "" "") rfl rfl rfl

/-- Counterexample for C6 as stated: two records with the same base title
(status-stripped, whitespace-normalised), the same start and the same venue
nevertheless receive different identifiers, because the digest input uses
the raw composed title, not the base title. -/
theorem c6_uid_counterexample :
    (splitTitleStatuses (mkEv "Film X" sampleStart "" "" "" "").title).2 =
      (splitTitleStatuses (mkEv " Film X" sampleStart "" "" "" "").title).2 ∧
    normalizeTitleForId (mkEv "Film X" sampleStart "" "" "" "").title =
      normalizeTitleForId (mkEv " Film X" sampleStart "" "" "" "").title ∧
    (mkEv "Film X" sampleStart "" "" "" "").start =
      (mkEv " Film X" sampleStart "" "" "" "").start ∧
    (mkEv "Film X" sampleStart "" "" "" "").venue =
      (mkEv " Film X" sampleStart "" "" "" "").venue ∧
    generateUid (mkEv "Film X" sampleStart "" "" "" "") ≠
      generateUid (mkEv " Film X" sampleStart "" "" "" "") := by
  decide

/-- Lookup after updating the same key returns the new value (provided the
key is present). -/
theorem regFind_update_self (reg : Registry) (k : IdKey) (v : EventRecord)
    (h : (regFind reg k).isSome) :
    regFind (regUpdate reg k v) k = some v := by
  induction reg with
  | nil => simp [regFind] at h
  | cons p rest ih =>
    by_cases hk : p.1 = k
    · simp [regFind, regUpdate, hk]
    · simp only [regFind, regUpdate, hk, if_false] at h ⊢
      exact ih h

/-- Lookup at a different key is unaffected by an update. -/
theorem regFind_update_other (reg : Registry) (k k' : IdKey)
    (v : EventRecord) (h : k ≠ k') :
    regFind (regUpdate reg k v) k' = regFind reg k' := by
  induction reg with
  | nil => simp [regFind, regUpdate]
  | cons p rest ih =>
    by_cases hk : p.1 = k
    · simp [regFind, regUpdate, hk, h]
    · simp [regFind, regUpdate, hk, ih]

/-- Claim C10: a merge rewrites at most title, description, venue, url and
source_url (the start timestamp of the merged record is the stored one),
and registration never changes the start timestamp of any record already in
the registry. -/
theorem c10_merge_never_touches_start :
    (∀ e n : EventRecord, ((mergeEventRecords e n).2).start = e.start) ∧
    (∀ (reg : Registry) (c : EventRecord) (k : IdKey) (r : EventRecord),
      regFind reg k = some r →
      ∃ r', regFind (registerEvent reg c).2 k = some r' ∧
        r'.start = r.start) := by
  constructor
  · intro e n
    rfl
  · intro reg c k r h
    cases hf : regFind reg (createEventId c) with
    | none =>
      refine ⟨r, ?_, rfl⟩
      have hne : createEventId c ≠ k := by
        intro he
        rw [he, h] at hf
        exact Option.noConfusion hf
      simp only [registerEvent, hf]
      simpa [regFind, hne] using h
    | some ex =>
      by_cases hk : createEventId c = k
      · subst hk
        rw [hf] at h
        refine ⟨(mergeEventRecords ex c).2, ?_, ?_⟩
        · simp only [registerEvent, hf]
          exact regFind_update_self reg _ _ (by simp [hf])
        · cases h
          rfl
      · refine ⟨r, ?_, rfl⟩
        simp only [registerEvent, hf]
        simpa [regFind_update_other reg _ _ _ hk] using h

/-- Witness for C10: a concrete registry with one stored record keeps that
record's start timestamp across a registration that merges into it. -/
theorem c10_merge_never_touches_start_witness :
    ∃ r', regFind
        (registerEvent
          [(createEventId (mkEv "Film X" sampleStart "" "" "" ""),
            mkEv "Film X" sampleStart "" "" "" "")]
          (mkEv "Film X" sampleStart "" "long description" "" "")).2
        (createEventId (mkEv "Film X" sampleStart "" "" "" "")) = some r' ∧
      r'.start = (mkEv "Film X" sampleStart "" "" "" "").start :=
  c10_merge_never_touches_start.2 _ _ _ _ (by decide)

/-- Claim C7 (amended): the final list is sorted ascending by start
timestamp only; the sort is stable, so entries with equal starts keep their
pre-sort order, and no title-based tie-break is applied. -/
theorem c7_sort_by_start_stable_amended :
    ∀ l : List EventRecord,
      (sortEvents l).Sorted startLE ∧ (sortEvents l).Perm l ∧
      (∀ a b : EventRecord, startLE a b → List.Sublist [a, b] l →
        List.Sublist [a, b] (sortEvents l)) := by
  intro l
  exact ⟨List.sorted_insertionSort startLE l,
    List.perm_insertionSort startLE l,
    fun a b hab hsub => List.pair_sublist_insertionSort hab hsub⟩

/-- Witness for C7: two equal-start records keep their relative order
through the sort. -/
theorem c7_sort_by_start_stable_amended_witness :
    List.Sublist
      [mkEv "b" sampleStart "" "" "" "", mkEv "A" sampleStart "" "" "" ""]
      (sortEvents
        [mkEv "b" sampleStart "" "" "" "", mkEv "A" sampleStart "" "" "" ""]) :=
  (c7_sort_by_start_stable_amended
      [mkEv "b" sampleStart "" "" "" "", mkEv "A" sampleStart "" "" "" ""]).2.2
    (mkEv "b" sampleStart "" "" "" "") (mkEv "A" sampleStart "" "" "" "")
    (by decide) (List.Sublist.refl _)

/-- Lookup fails when no stored key matches. -/
theorem metaFind_eq_none (L : List (Str × MetaEntry)) (u : Str)
    (h : ∀ kv ∈ L, kv.1 ≠ u) : metaFind L u = none := by
  induction L with
  | nil => rfl
  | cons kv rest ih =>
    have hk : kv.1 ≠ u := h kv (by simp)
    simp only [metaFind, hk, if_false]
    exact ih (fun kv' h' => h kv' (by simp [h']))

/-- Lookup in an association list with pairwise-distinct keys returns the
stored binding. -/
theorem metaFind_nodup (L : List (Str × MetaEntry)) (u : Str) (m : MetaEntry)
    (hnd : (L.map Prod.fst).Nodup) (hm : (u, m) ∈ L) :
    metaFind L u = some m := by
  induction L with
  | nil => simp at hm
  | cons kv rest ih =>
    simp only [List.map_cons, List.nodup_cons] at hnd
    rcases List.mem_cons.mp hm with h | h
    · cases h
      simp [metaFind]
    · have hk : kv.1 ≠ u := by
        intro he
        exact hnd.1 (he ▸ List.mem_map_of_mem Prod.fst h)
      simp only [metaFind, hk, if_false]
      exact ih hnd.2 h

/-- Keys stored by the metadata loader are exactly the prior feed's UIDs. -/
theorem loadMetadata_keys (prior : List FeedEntry) :
    (loadMetadata prior).map Prod.fst = (prior.map FeedEntry.uid).reverse := by
  simp [loadMetadata, List.map_reverse, List.map_map]

/-- Every prior entry contributes its binding to the loaded metadata. -/
theorem mem_loadMetadata {prior : List FeedEntry} {pe : FeedEntry}
    (h : pe ∈ prior) : (pe.uid, metaOf pe) ∈ loadMetadata prior := by
  simp only [loadMetadata, List.mem_reverse, List.mem_map]
  exact ⟨pe, h, rfl⟩

/-- With pairwise-distinct prior UIDs, the loader's dictionary resolves each
prior entry's UID to that entry's stored signature and timestamp. -/
theorem metaFind_loadMetadata {prior : List FeedEntry}
    (hnd : (prior.map FeedEntry.uid).Nodup) {pe : FeedEntry} (h : pe ∈ prior) :
    metaFind (loadMetadata prior) pe.uid = some (metaOf pe) := by
  apply metaFind_nodup
  · rw [loadMetadata_keys]
    exact List.nodup_reverse.mpr hnd
  · exact mem_loadMetadata h

/-- Unfolding of the DTSTAMP decision of one generated entry. -/
theorem entryFor_dtstamp (meta : List (Str × MetaEntry)) (now : DateTime)
    (e : EventRecord) :
    (entryFor meta now e).dtstamp =
      match metaFind meta (generateUid e) with
      | some m =>
        if m.signature = signatureFromData e ∧ m.dtstamp.isSome then
          m.dtstamp.getD now
        else now
      | none => now := rfl

/-- A generated entry carries its record's UID. -/
theorem entryFor_uid (meta : List (Str × MetaEntry)) (now : DateTime)
    (e : EventRecord) : (entryFor meta now e).uid = generateUid e := rfl

/-- The component signature recomputed from a freshly generated entry equals
the data signature of its record (the two signature functions of the source
agree across one write/read cycle). -/
theorem signature_roundtrip (meta : List (Str × MetaEntry)) (now : DateTime)
    (e : EventRecord) :
    signatureFromEntry (entryFor meta now e) = signatureFromData e := rfl

/-- UIDs of a generated feed are the record UIDs. -/
theorem generateEntries_uids (events : List EventRecord)
    (meta : List (Str × MetaEntry)) (now : DateTime) :
    (generateEntries events meta now).map FeedEntry.uid =
      events.map generateUid := by
  rw [generateEntries, List.map_map]
  rfl

/-- Claim C2: a generated entry reuses the prior feed's change-tracking
timestamp exactly when the prior feed holds an entry with the same UID and
an equal recomputed content signature (prior feeds carry pairwise-distinct
UIDs and a stored timestamp per entry); otherwise the timestamp is
refreshed to now.  Consequently, regenerating the feed from unchanged
records (whose UIDs are pairwise distinct) reproduces every timestamp. -/
theorem c2_dtstamp_reuse_and_roundtrip :
    ∀ (prior : List FeedEntry) (events : List EventRecord) (now : DateTime),
      (prior.map FeedEntry.uid).Nodup →
      (events.map generateUid).Nodup →
      ((∀ (e : EventRecord), ∀ pe ∈ prior, pe.uid = generateUid e →
          ((signatureFromEntry pe = signatureFromData e →
            (entryFor (loadMetadata prior) now e).dtstamp = pe.dtstamp) ∧
           (signatureFromEntry pe ≠ signatureFromData e →
            (entryFor (loadMetadata prior) now e).dtstamp = now))) ∧
       (∀ (e : EventRecord), (∀ pe ∈ prior, pe.uid ≠ generateUid e) →
          (entryFor (loadMetadata prior) now e).dtstamp = now)) ∧
      (∀ (meta0 : List (Str × MetaEntry)) (now2 : DateTime),
        (generateEntries events
            (loadMetadata (generateEntries events meta0 now)) now2).map
          FeedEntry.dtstamp =
        (generateEntries events meta0 now).map FeedEntry.dtstamp) := by
  intro prior events now hndPrior hndEvents
  refine ⟨⟨?_, ?_⟩, ?_⟩
  · intro e pe hpe huid
    have hfind : metaFind (loadMetadata prior) (generateUid e) =
        some (metaOf pe) := by
      rw [← huid]
      exact metaFind_loadMetadata hndPrior hpe
    constructor
    · intro hsig
      rw [entryFor_dtstamp, hfind]
      simp [metaOf, hsig]
    · intro hsig
      rw [entryFor_dtstamp, hfind]
      simp [metaOf, hsig]
  · intro e hnone
    have hfind : metaFind (loadMetadata prior) (generateUid e) = none := by
      apply metaFind_eq_none
      intro kv hkv
      simp only [loadMetadata, List.mem_reverse, List.mem_map] at hkv
      rcases hkv with ⟨pe, hpe, rfl⟩
      exact hnone pe hpe
    rw [entryFor_dtstamp, hfind]
  · intro meta0 now2
    simp only [generateEntries, List.map_map]
    apply List.map_congr_left
    intro e he
    show (entryFor (loadMetadata (generateEntries events meta0 now)) now2
        e).dtstamp = (entryFor meta0 now e).dtstamp
    have hmem : entryFor meta0 now e ∈ generateEntries events meta0 now :=
      List.mem_map_of_mem (entryFor meta0 now) he
    have hnd1 : ((generateEntries events meta0 now).map FeedEntry.uid).Nodup := by
      rw [generateEntries_uids]
      exact hndEvents
    have hfind := metaFind_loadMetadata hnd1 hmem
    rw [entryFor_uid] at hfind
    rw [entryFor_dtstamp, hfind]
    simp [metaOf, signature_roundtrip]

/-- Witness for C2: with no prior feed at all, a concrete singleton run
gets a fresh timestamp, and regenerating from the same record reproduces
the timestamps of the first run byte for byte. -/
theorem c2_dtstamp_reuse_and_roundtrip_witness :
    (entryFor (loadMetadata []) sampleStart
        (mkEv "Film X" sampleStart "Colony" "d" "" "")).dtstamp = sampleStart ∧
    (generateEntries [mkEv "Film X" sampleStart "Colony" "d" "" ""]
        (loadMetadata
          (generateEntries [mkEv "Film X" sampleStart "Colony" "d" "" ""] []
            sampleStart))
        { sampleStart with hour := 21 }).map FeedEntry.dtstamp =
      (generateEntries [mkEv "Film X" sampleStart "Colony" "d" "" ""] []
          sampleStart).map FeedEntry.dtstamp := by
  have h := c2_dtstamp_reuse_and_roundtrip []
    [mkEv "Film X" sampleStart "Colony" "d" "" ""] sampleStart
    (by decide) (by simp)
  exact ⟨h.1.2 (mkEv "Film X" sampleStart "Colony" "d" "" "")
      (fun pe hpe => absurd hpe (by simp)),
    h.2 [] { sampleStart with hour := 21 }⟩

/-- Statuses produced by the marker-consuming loop are always known
markers. -/
theorem splitLoopGo_statuses (fuel : Nat) :
    ∀ (r s : Str), s ∈ (splitLoopGo fuel r).1 →
      s = standbyMarker ∨ s = ticketedMarker := by
  induction fuel with
  | zero =>
    intro r s hs
    simp [splitLoopGo] at hs
  | succ f ih =>
    intro r s hs
    simp only [splitLoopGo] at hs
    split at hs
    · rcases List.mem_cons.mp hs with h | h
      · exact Or.inl h
      · exact ih _ s h
    · split at hs
      · rcases List.mem_cons.mp hs with h | h
        · exact Or.inr h
        · exact ih _ s h
      · simp at hs

/-- Statuses of a split title are always known markers. -/
theorem splitTitleStatuses_mem {t s : Str}
    (hs : s ∈ (splitTitleStatuses t).1) :
    s = standbyMarker ∨ s = ticketedMarker := by
  unfold splitTitleStatuses at hs
  split at hs
  · simp at hs
  · exact splitLoopGo_statuses _ _ s hs

/-- Elements of a merged status list are known markers. -/
theorem mergedStatuses_elem {es ns : List Str} {s : Str}
    (h : s ∈ mergedStatuses es ns) :
    s = standbyMarker ∨ s = ticketedMarker := by
  have hmem := List.mem_of_mem_filter h
  simpa [statusOrder] using hmem

/-- Membership in the merged status list, given membership on either side
and being a known marker. -/
theorem mem_mergedStatuses {es ns : List Str} {s : Str}
    (hm : s ∈ es ∨ s ∈ ns) (hs : s = standbyMarker ∨ s = ticketedMarker) :
    s ∈ mergedStatuses es ns := by
  apply List.mem_filter.mpr
  constructor
  · rcases hs with rfl | rfl <;> simp [statusOrder]
  · rcases hm with h | h <;> simp [h]

/-- The status union is order-independent. -/
theorem mergedStatuses_comm (es ns : List Str) :
    mergedStatuses es ns = mergedStatuses ns es := by
  unfold mergedStatuses
  exact List.filter_congr (fun s _ => Bool.or_comm _ _)

/-- Longer-wins base merging is order-independent when the lengths differ
or the two bases coincide. -/
theorem mergedBase_comm (eb nb : Str)
    (h : eb.length ≠ nb.length ∨ eb = nb) :
    mergedBase eb nb = mergedBase nb eb := by
  rcases h with h | rfl
  · cases eb with
    | nil =>
      cases nb with
      | nil => rfl
      | cons d ds => rfl
    | cons c cs =>
      cases nb with
      | nil => rfl
      | cons d ds =>
        have e1 : mergedBase (c :: cs) (d :: ds) =
            (if (d :: ds).length > (c :: cs).length then d :: ds
             else c :: cs) := rfl
        have e2 : mergedBase (d :: ds) (c :: cs) =
            (if (c :: cs).length > (d :: ds).length then c :: cs
             else d :: ds) := rfl
        rw [e1, e2]
        by_cases hlt : (c :: cs).length < (d :: ds).length
        · rw [if_pos hlt, if_neg (Nat.lt_asymm hlt)]
        · have hgt : (d :: ds).length < (c :: cs).length := by omega
          rw [if_neg (Nat.lt_asymm hgt), if_pos hgt]
  · rfl

/-- The merged base is empty exactly when both bases are empty. -/
theorem mergedBase_nil_iff (eb nb : Str) :
    mergedBase eb nb = [] ↔ eb = [] ∧ nb = [] := by
  cases eb with
  | nil =>
    cases nb with
    | nil => simp [mergedBase]
    | cons d ds =>
      have e : mergedBase [] (d :: ds) = d :: ds := rfl
      simp [e]
  | cons c cs =>
    cases nb with
    | nil =>
      have e : mergedBase (c :: cs) [] = c :: cs := rfl
      simp [e]
    | cons d ds =>
      have e : mergedBase (c :: cs) (d :: ds) =
          (if (d :: ds).length > (c :: cs).length then d :: ds
           else c :: cs) := rfl
      rw [e]
      constructor
      · intro h
        exfalso
        revert h
        split <;> simp
      · rintro ⟨h, _⟩
        exact absurd h (by simp)

/-- A character of the first block appears in the space-joined whole. -/
theorem mem_joinSpace_head {c : Char} {s : Str} {rest : List Str}
    (h : c ∈ s) : c ∈ joinSpace (s :: rest) := by
  cases rest with
  | nil => simpa [joinSpace, List.intercalate] using h
  | cons r rs =>
    simp only [joinSpace, List.intercalate, List.intersperse, List.flatten]
    exact List.mem_append_left _ h

/-- A non-matching element survives `dropWhile`. -/
theorem mem_dropWhile_of_not (p : Char → Bool) (l : Str) (c : Char)
    (hc : c ∈ l) (hp : p c = false) : c ∈ l.dropWhile p := by
  induction l with
  | nil => simp at hc
  | cons x rest ih =>
    by_cases hx : p x
    · rcases List.mem_cons.mp hc with h | h
      · rw [h] at hp
        rw [hp] at hx
        exact absurd hx (by simp)
      · simp only [List.dropWhile, hx]
        exact ih h
    · simpa [List.dropWhile, hx] using hc

/-- A string containing a non-space character does not trim to empty. -/
theorem trim_ne_nil {l : Str} {c : Char} (hc : c ∈ l)
    (hp : isSpaceChar c = false) : trim l ≠ [] := by
  intro h
  unfold trim rtrim at h
  have h2 : ltrim (ltrim l).reverse = [] := by
    have := congrArg List.reverse h
    simpa using this
  have h3 := List.dropWhile_eq_nil_iff.mp h2
  have hcl : c ∈ ltrim l := mem_dropWhile_of_not _ _ _ hc hp
  have := h3 c (List.mem_reverse.mpr hcl)
  rw [hp] at this
  exact Bool.noConfusion this

/-- Both markers begin with the same first character, which is not a space
character. -/
theorem marker_head_facts :
    ('ð' ∈ standbyMarker) ∧ ('ð' ∈ ticketedMarker) ∧
      isSpaceChar 'ð' = false := by
  decide

/-- The recomposed title is adopted whenever it is non-empty, whether or
not it differs from the stored title. -/
theorem assembled_if (assembled t : Str) (h : assembled ≠ []) :
    (if !assembled.isEmpty && assembled ≠ t then assembled else t) =
      assembled := by
  by_cases he : assembled = t
  · simp [he]
  · simp [List.isEmpty_iff, h, he]

/-- Characterization of the merged title when the merged base and merged
status list are not both empty: the recomposed title is adopted no matter
how it compares with the stored title. -/
theorem mergeTitle_eq_assembled (ta tb : Str)
    (h : ¬(mergedBase (splitTitleStatuses ta).2 (splitTitleStatuses tb).2 = [] ∧
        mergedStatuses (splitTitleStatuses ta).1 (splitTitleStatuses tb).1 = [])) :
    mergeTitle ta tb =
      (if (mergedStatuses (splitTitleStatuses ta).1
            (splitTitleStatuses tb).1).isEmpty then
        mergedBase (splitTitleStatuses ta).2 (splitTitleStatuses tb).2
       else
        trim (joinSpace (mergedStatuses (splitTitleStatuses ta).1
            (splitTitleStatuses tb).1) ++
          ' ' :: mergedBase (splitTitleStatuses ta).2
            (splitTitleStatuses tb).2)) := by
  simp only [mergeTitle]
  rcases hmsl : mergedStatuses (splitTitleStatuses ta).1
      (splitTitleStatuses tb).1 with _ | ⟨s, srest⟩
  · rcases hmbl : mergedBase (splitTitleStatuses ta).2
        (splitTitleStatuses tb).2 with _ | ⟨c, cs⟩
    · exact absurd ⟨hmbl, hmsl⟩ h
    · by_cases hta : c :: cs = ta <;> simp [hta]
  · have hsmem : s ∈ mergedStatuses (splitTitleStatuses ta).1
        (splitTitleStatuses tb).1 := by
      rw [hmsl]
      simp
    have hmrk := mergedStatuses_elem hsmem
    have hdm : 'ð' ∈ s := by
      rcases hmrk with rfl | rfl
      · exact marker_head_facts.1
      · exact marker_head_facts.2.1
    have hasm : trim (joinSpace (s :: srest) ++
        ' ' :: mergedBase (splitTitleStatuses ta).2
          (splitTitleStatuses tb).2) ≠ [] :=
      trim_ne_nil (List.mem_append_left _ (mem_joinSpace_head hdm))
        marker_head_facts.2.2
    by_cases hta : trim (joinSpace (s :: srest) ++
        ' ' :: mergedBase (splitTitleStatuses ta).2
          (splitTitleStatuses tb).2) = ta <;>
      simp [hta, hasm]

/-- Title merging is order-independent provided the two base titles have
different lengths or coincide, and the degenerate case of two all-empty
titles only occurs when the titles are equal. -/
theorem mergeTitle_comm (ta tb : Str)
    (hbase : (splitTitleStatuses ta).2.length ≠
        (splitTitleStatuses tb).2.length ∨
      (splitTitleStatuses ta).2 = (splitTitleStatuses tb).2)
    (hne : (splitTitleStatuses ta).1 ≠ [] ∨ (splitTitleStatuses ta).2 ≠ [] ∨
      (splitTitleStatuses tb).1 ≠ [] ∨ (splitTitleStatuses tb).2 ≠ [] ∨
      ta = tb) :
    mergeTitle ta tb = mergeTitle tb ta := by
  have hms := mergedStatuses_comm (splitTitleStatuses ta).1
    (splitTitleStatuses tb).1
  have hmb := mergedBase_comm (splitTitleStatuses ta).2
    (splitTitleStatuses tb).2 hbase
  by_cases hall :
      mergedBase (splitTitleStatuses ta).2 (splitTitleStatuses tb).2 = [] ∧
      mergedStatuses (splitTitleStatuses ta).1 (splitTitleStatuses tb).1 = []
  · have hbases := (mergedBase_nil_iff _ _).mp hall.1
    have hesa : (splitTitleStatuses ta).1 = [] := by
      rcases hsa : (splitTitleStatuses ta).1 with _ | ⟨s, srest⟩
      · rfl
      · exfalso
        have hsmem : s ∈ (splitTitleStatuses ta).1 := by simp [hsa]
        have hmrk := splitTitleStatuses_mem hsmem
        have : s ∈ mergedStatuses (splitTitleStatuses ta).1
            (splitTitleStatuses tb).1 :=
          mem_mergedStatuses (Or.inl hsmem) hmrk
        rw [hall.2] at this
        simp at this
    have hesb : (splitTitleStatuses tb).1 = [] := by
      rcases hsb : (splitTitleStatuses tb).1 with _ | ⟨s, srest⟩
      · rfl
      · exfalso
        have hsmem : s ∈ (splitTitleStatuses tb).1 := by simp [hsb]
        have hmrk := splitTitleStatuses_mem hsmem
        have : s ∈ mergedStatuses (splitTitleStatuses ta).1
            (splitTitleStatuses tb).1 :=
          mem_mergedStatuses (Or.inr hsmem) hmrk
        rw [hall.2] at this
        simp at this
    have hta : ta = tb := by
      rcases hne with h | h | h | h | h
      · exact absurd hesa h
      · exact absurd hbases.1 h
      · exact absurd hesb h
      · exact absurd hbases.2 h
      · exact h
    rw [hta]
  · have hall2 :
        ¬(mergedBase (splitTitleStatuses tb).2 (splitTitleStatuses ta).2 = [] ∧
          mergedStatuses (splitTitleStatuses tb).1
            (splitTitleStatuses ta).1 = []) := by
      rw [← hmb, ← hms]
      exact hall
    rw [mergeTitle_eq_assembled ta tb hall, mergeTitle_eq_assembled tb ta hall2,
      hms, hmb]

/-- Substring search in the empty string fails for a non-empty pattern. -/
theorem hasEventId_nil : hasEventId [] = false := rfl

/-- Two candidates sharing an identity key merge to the same record after
two registrations, whichever was registered first, under the amended side
conditions (stated and proved as `c1_merge_commutes_amended`); this lemma
handles the merge itself. -/
theorem mergeEventRecords_comm (a b : EventRecord)
    (hkey : createEventId a = createEventId b)
    (hbase : (splitTitleStatuses a.title).2.length ≠
        (splitTitleStatuses b.title).2.length ∨
      (splitTitleStatuses a.title).2 = (splitTitleStatuses b.title).2)
    (htne : (splitTitleStatuses a.title).1 ≠ [] ∨
      (splitTitleStatuses a.title).2 ≠ [] ∨
      (splitTitleStatuses b.title).1 ≠ [] ∨
      (splitTitleStatuses b.title).2 ≠ [] ∨ a.title = b.title)
    (hdesc : a.description.length ≠ b.description.length ∨
      a.description = b.description)
    (hv : a.venue = b.venue)
    (hurl : a.url = b.url ∨ a.url = [] ∨ b.url = [] ∨
      hasEventId a.url ≠ hasEventId b.url)
    (hsrc : a.source_url = b.source_url ∨ a.source_url = [] ∨
      b.source_url = []) :
    (mergeEventRecords a b).2 = (mergeEventRecords b a).2 := by
  have hstart : a.start = b.start := congrArg IdKey.start hkey
  simp only [mergeEventRecords]
  congr 1
  · exact mergeTitle_comm a.title b.title hbase htne
  · rw [hv]
  · rcases hdesc with h | h
    · by_cases hlt : a.description.length < b.description.length
      · have hbne : b.description ≠ [] := by
          intro hb
          rw [hb] at hlt
          simp at hlt
        have hnlt : ¬b.description.length < a.description.length :=
          Nat.lt_asymm hlt
        simp [List.isEmpty_iff, hbne, hlt, hnlt]
      · have hgt : b.description.length < a.description.length := by omega
        have hane : a.description ≠ [] := by
          intro ha
          rw [ha] at hgt
          simp at hgt
        have hnlt : ¬a.description.length < b.description.length :=
          Nat.lt_asymm hgt
        simp [List.isEmpty_iff, hane, hgt, hnlt]
    · rw [h]
  · rcases hurl with h | h | h | h
    · rw [h]
    · rw [h]
      by_cases hb : b.url = [] <;> simp [List.isEmpty_iff, hb]
    · rw [h]
      by_cases ha : a.url = [] <;> simp [List.isEmpty_iff, ha]
    · by_cases hA : hasEventId a.url
      · have hB : hasEventId b.url = false := by
          cases hBc : hasEventId b.url
          · rfl
          · rw [hA, hBc] at h
            exact absurd rfl h
        have hane : a.url ≠ [] := by
          intro ha
          rw [ha, hasEventId_nil] at hA
          exact Bool.noConfusion hA
        have hne2 : a.url ≠ b.url := by
          intro he
          rw [he, hB] at hA
          exact Bool.noConfusion hA
        by_cases hbe : b.url = [] <;>
          simp [List.isEmpty_iff, hane, hbe, hA, hB, hne2, Ne.symm hne2]
      · have hA' : hasEventId a.url = false := by
          cases hAc : hasEventId a.url
          · rfl
          · exact absurd hAc hA
        have hB : hasEventId b.url = true := by
          cases hBc : hasEventId b.url
          · rw [hA', hBc] at h
            exact absurd rfl h
          · rfl
        have hbne : b.url ≠ [] := by
          intro hb
          rw [hb, hasEventId_nil] at hB
          exact Bool.noConfusion hB
        have hne2 : a.url ≠ b.url := by
          intro he
          rw [he, hB] at hA'
          exact Bool.noConfusion hA'
        by_cases hae : a.url = [] <;>
          simp [List.isEmpty_iff, hbne, hae, hA', hB, hne2, Ne.symm hne2]
  · rcases hsrc with h | h | h
    · rw [h]
    · rw [h]
      by_cases hb : b.source_url = [] <;> simp [List.isEmpty_iff, hb]
    · rw [h]
      by_cases ha : a.source_url = [] <;> simp [List.isEmpty_iff, ha]

/-- Registering two identity-sharing candidates in either order stores, as
the final authoritative record, the merge of the first stored record with
the second candidate. -/
theorem authoritativeAfter_eq_merge (a b : EventRecord)
    (hkey : createEventId a = createEventId b) :
    authoritativeAfter a b = (mergeEventRecords a b).2 := by
  simp [authoritativeAfter, registerEvent, regFind, hkey]

/-- Claim C1 (amended): registering candidates A then B yields the same
authoritative record, field for field, as registering B then A, for any two
candidates sharing an identity key, provided additionally that the two base
titles differ in length or coincide (and are not both degenerate with no
status markers unless the full titles coincide), the two descriptions
differ in length or coincide, the venues coincide, the URLs coincide or at
most one is non-empty or exactly one carries an eventId parameter, and the
provenance URLs coincide or at most one is non-empty.  Without these side
conditions order-independence fails (see the counterexample). -/
theorem c1_merge_commutes_amended (a b : EventRecord)
    (hkey : createEventId a = createEventId b)
    (hbase : (splitTitleStatuses a.title).2.length ≠
        (splitTitleStatuses b.title).2.length ∨
      (splitTitleStatuses a.title).2 = (splitTitleStatuses b.title).2)
    (htne : (splitTitleStatuses a.title).1 ≠ [] ∨
      (splitTitleStatuses a.title).2 ≠ [] ∨
      (splitTitleStatuses b.title).1 ≠ [] ∨
      (splitTitleStatuses b.title).2 ≠ [] ∨ a.title = b.title)
    (hdesc : a.description.length ≠ b.description.length ∨
      a.description = b.description)
    (hv : a.venue = b.venue)
    (hurl : a.url = b.url ∨ a.url = [] ∨ b.url = [] ∨
      hasEventId a.url ≠ hasEventId b.url)
    (hsrc : a.source_url = b.source_url ∨ a.source_url = [] ∨
      b.source_url = []) :
    authoritativeAfter a b = authoritativeAfter b a := by
  rw [authoritativeAfter_eq_merge a b hkey,
    authoritativeAfter_eq_merge b a hkey.symm]
  exact mergeEventRecords_comm a b hkey hbase htne hdesc hv hurl hsrc

/-- Witness for C1: the documented two-source scenario (one candidate bare,
one with venue and description) merges to the same record in either order. -/
theorem c1_merge_commutes_amended_witness :
    authoritativeAfter (mkEv "Film X" sampleStart "" "" "" "src")
        (mkEv "Film X" sampleStart "" "short desc" "" "src") =
      authoritativeAfter (mkEv "Film X" sampleStart "" "short desc" "" "src")
        (mkEv "Film X" sampleStart "" "" "" "src") :=
  c1_merge_commutes_amended
    (mkEv "Film X" sampleStart "" "" "" "src")
    (mkEv "Film X" sampleStart "" "short desc" "" "src")
    (by decide) (by decide) (by decide) (by decide) (by decide) (by decide)
    (by decide)

/-- Counterexample for C1 as stated: two candidates share an identity key
and differ only in their (both non-empty, equally unspecific) URLs; the
stored record keeps whichever URL was registered first, so the two
registration orders give records that differ in the url field. -/
theorem c1_merge_counterexample :
    createEventId (mkEv "Film X" sampleStart "" "" "http://a" "s") =
      createEventId (mkEv "Film X" sampleStart "" "" "http://b" "s") ∧
    (authoritativeAfter (mkEv "Film X" sampleStart "" "" "http://a" "s")
        (mkEv "Film X" sampleStart "" "" "http://b" "s")).url = S "http://a" ∧
    (authoritativeAfter (mkEv "Film X" sampleStart "" "" "http://b" "s")
        (mkEv "Film X" sampleStart "" "" "http://a" "s")).url = S "http://b" ∧
    authoritativeAfter (mkEv "Film X" sampleStart "" "" "http://a" "s")
        (mkEv "Film X" sampleStart "" "" "http://b" "s") ≠
      authoritativeAfter (mkEv "Film X" sampleStart "" "" "http://b" "s")
        (mkEv "Film X" sampleStart "" "" "http://a" "s") := by
  decide

/-- Merging a record with itself changes nothing, provided its title is
already in recomposed canonical form. -/
theorem mergeEventRecords_self (c : EventRecord)
    (h : mergeTitle c.title c.title = c.title) :
    mergeEventRecords c c = (false, c) := by
  simp [mergeEventRecords, h]

/-- Claim C3 (amended): registering the identical candidate a second time
returns `is_new = false` and `changed = false` and leaves the stored record
and the registry untouched, provided the candidate's title equals its own
recomposition (status markers deduplicated in canonical order, single
spaces, no surrounding whitespace); a title outside that canonical form is
rewritten by the second registration (see the counterexample). -/
theorem c3_repeat_registration_idempotent_amended (c : EventRecord)
    (h : mergeTitle c.title c.title = c.title) :
    (registerEvent (registerEvent [] c).2 c).1 = (false, c, false) ∧
    (registerEvent (registerEvent [] c).2 c).2 = (registerEvent [] c).2 := by
  have hm := mergeEventRecords_self c h
  constructor <;> simp [registerEvent, regFind, regUpdate, hm]

/-- Witness for C3: a concrete candidate with a canonical title registers
twice with no reported change. -/
theorem c3_repeat_registration_idempotent_amended_witness :
    (registerEvent (registerEvent []
        (mkEv "Film X" sampleStart "Colony" "d" "u" "s")).2
      (mkEv "Film X" sampleStart "Colony" "d" "u" "s")).1 =
      (false, mkEv "Film X" sampleStart "Colony" "d" "u" "s", false) ∧
    (registerEvent (registerEvent []
        (mkEv "Film X" sampleStart "Colony" "d" "u" "s")).2
      (mkEv "Film X" sampleStart "Colony" "d" "u" "s")).2 =
      (registerEvent [] (mkEv "Film X" sampleStart "Colony" "d" "u" "s")).2 :=
  c3_repeat_registration_idempotent_amended
    (mkEv "Film X" sampleStart "Colony" "d" "u" "s") (by decide)

/-- Counterexample for C3 as stated: a candidate whose title carries a
leading space (so it is not in canonical recomposed form) is reported as
`changed = true` on its second, identical registration, and the stored
title is rewritten. -/
theorem c3_repeat_registration_counterexample :
    (registerEvent (registerEvent []
        (mkEv " Film X" sampleStart "" "" "" "")).2
      (mkEv " Film X" sampleStart "" "" "" "")).1.2.2 = true ∧
    ((registerEvent (registerEvent []
        (mkEv " Film X" sampleStart "" "" "" "")).2
      (mkEv " Film X" sampleStart "" "" "" "")).1.2.1).title ≠
      (mkEv " Film X" sampleStart "" "" "" "").title := by
  decide

/-- Left-stripping keeps a string with a non-space head unchanged. -/
theorem ltrim_cons_of_nonspace {c : Char} {t : Str}
    (h : isSpaceChar c = false) : ltrim (c :: t) = c :: t := by
  simp [ltrim, List.dropWhile_cons, h]

/-- A fixed point of left-stripping is empty or has a non-space head. -/
theorem ltrim_fixed_head {l : Str} (h : ltrim l = l) :
    l = [] ∨ ∃ c t, l = c :: t ∧ isSpaceChar c = false := by
  cases l with
  | nil => exact Or.inl rfl
  | cons c t =>
    refine Or.inr ⟨c, t, rfl, ?_⟩
    by_cases hc : isSpaceChar c
    · exfalso
      simp only [ltrim, List.dropWhile_cons, hc, if_true] at h
      have hl := length_dropWhile_le isSpaceChar t
      rw [h] at hl
      simp at hl
    · simpa using hc

/-- Left-stripping is idempotent. -/
theorem ltrim_idem (l : Str) : ltrim (ltrim l) = ltrim l := by
  induction l with
  | nil => rfl
  | cons c t ih =>
    by_cases hc : isSpaceChar c
    · simpa [ltrim, List.dropWhile_cons, hc] using ih
    · have hc' : isSpaceChar c = false := by simpa using hc
      rw [ltrim_cons_of_nonspace hc', ltrim_cons_of_nonspace hc']

/-- A prefix of a left-strip fixed point is itself fixed. -/
theorem ltrim_fixed_of_prefix {Y X : Str} (hp : List.IsPrefix Y X)
    (h : ltrim X = X) : ltrim Y = Y := by
  rcases ltrim_fixed_head h with rfl | ⟨c, t, rfl, hc⟩
  · rw [List.prefix_nil.mp hp]
    rfl
  · cases Y with
    | nil => rfl
    | cons d ds =>
      obtain ⟨k, hk⟩ := hp
      have hd : d = c := by
        have := congrArg (fun l => l.head?) hk
        simpa using this
      rw [hd]
      exact ltrim_cons_of_nonspace hc

/-- Right-strip fixed points, phrased through reversal. -/
theorem rtrim_fixed_iff {l : Str} :
    rtrim l = l ↔ ltrim l.reverse = l.reverse := by
  unfold rtrim
  constructor
  · intro h
    have := congrArg List.reverse h
    simpa using this
  · intro h
    rw [h]
    simp

/-- A suffix of a right-strip fixed point is itself fixed. -/
theorem rtrim_fixed_of_suffix {Y X : Str} (hs : List.IsSuffix Y X)
    (h : rtrim X = X) : rtrim Y = Y := by
  rw [rtrim_fixed_iff] at h ⊢
  exact ltrim_fixed_of_prefix (List.reverse_prefix.mpr hs) h

/-- Right-stripping is idempotent. -/
theorem rtrim_idem (l : Str) : rtrim (rtrim l) = rtrim l := by
  rw [rtrim_fixed_iff]
  simp only [rtrim, List.reverse_reverse]
  exact ltrim_idem _

/-- A trimmed string is a fixed point of left-stripping. -/
theorem ltrim_trim (t : Str) : ltrim (trim t) = trim t := by
  have hsuf : List.IsSuffix (ltrim ((ltrim t).reverse)) ((ltrim t).reverse) :=
    List.dropWhile_suffix _
  have hp := List.reverse_prefix.mpr hsuf
  rw [List.reverse_reverse (ltrim t)] at hp
  exact ltrim_fixed_of_prefix hp (ltrim_idem t)

/-- A trimmed string is a fixed point of right-stripping. -/
theorem rtrim_trim (t : Str) : rtrim (trim t) = trim t := rtrim_idem _

/-- Trimming is idempotent. -/
theorem trim_idem (t : Str) : trim (trim t) = trim t := by
  show rtrim (ltrim (trim t)) = trim t
  rw [ltrim_trim, rtrim_trim]

/-- The base produced by the marker loop is a suffix of the input. -/
theorem splitLoopGo_base_suffix (fuel : Nat) :
    ∀ r : Str, List.IsSuffix (splitLoopGo fuel r).2 r := by
  induction fuel with
  | zero => intro r; exact List.suffix_refl r
  | succ f ih =>
    intro r
    simp only [splitLoopGo]
    split
    · exact (ih _).trans ((List.dropWhile_suffix _).trans (List.drop_suffix _ _))
    · split
      · exact (ih _).trans
          ((List.dropWhile_suffix _).trans (List.drop_suffix _ _))
      · exact List.suffix_refl r

/-- The base produced by the marker loop is left-strip fixed whenever the
input is. -/
theorem splitLoopGo_base_ltrim (fuel : Nat) :
    ∀ r : Str, ltrim r = r →
      ltrim (splitLoopGo fuel r).2 = (splitLoopGo fuel r).2 := by
  induction fuel with
  | zero => intro r h; exact h
  | succ f ih =>
    intro r h
    simp only [splitLoopGo]
    split
    · exact ih _ (ltrim_idem _)
    · split
      · exact ih _ (ltrim_idem _)
      · exact h

/-- The base produced by the marker loop does not start with a marker,
given sufficient fuel. -/
theorem splitLoopGo_base_noPfx (fuel : Nat) :
    ∀ r : Str, r.length ≤ fuel →
      standbyMarker.isPrefixOf (splitLoopGo fuel r).2 = false ∧
      ticketedMarker.isPrefixOf (splitLoopGo fuel r).2 = false := by
  induction fuel with
  | zero =>
    intro r hr
    have : r = [] := List.length_eq_zero.mp (Nat.le_zero.mp hr)
    subst this
    exact ⟨rfl, rfl⟩
  | succ f ih =>
    intro r hr
    simp only [splitLoopGo]
    split
    · next h1 =>
      apply ih
      have hlen : standbyMarker.length ≤ r.length :=
        (List.isPrefixOf_iff_prefix.mp h1).length_le
      have h2 := length_dropWhile_le isSpaceChar (r.drop standbyMarker.length)
      have h4 : standbyMarker.length = 4 := rfl
      simp only [ltrim, h4]
      simp only [List.length_drop] at h2
      rw [h4] at hlen h2
      omega
    · split
      · next h1 h2 =>
        apply ih
        have hlen : ticketedMarker.length ≤ r.length :=
          (List.isPrefixOf_iff_prefix.mp h2).length_le
        have h3 := length_dropWhile_le isSpaceChar (r.drop ticketedMarker.length)
        have h4 : ticketedMarker.length = 6 := rfl
        simp only [ltrim, h4]
        simp only [List.length_drop] at h3
        rw [h4] at hlen h3
        omega
      · next h1 h2 =>
        constructor
        · rw [Bool.eq_false_iff]
          simpa using h1
        · rw [Bool.eq_false_iff]
          simpa using h2

/-- The base of a split title never starts with a marker and is a fixed
point of stripping on both sides. -/
theorem splitBase_invariants (t : Str) :
    standbyMarker.isPrefixOf (splitTitleStatuses t).2 = false ∧
    ticketedMarker.isPrefixOf (splitTitleStatuses t).2 = false ∧
    ltrim (splitTitleStatuses t).2 = (splitTitleStatuses t).2 ∧
    rtrim (splitTitleStatuses t).2 = (splitTitleStatuses t).2 := by
  unfold splitTitleStatuses
  split
  · exact ⟨rfl, rfl, rfl, rfl⟩
  · have hno := splitLoopGo_base_noPfx (trim t).length (trim t) le_rfl
    refine ⟨hno.1, hno.2, ?_, ?_⟩
    · exact splitLoopGo_base_ltrim _ _ (ltrim_trim t)
    · exact rtrim_fixed_of_suffix (splitLoopGo_base_suffix _ _) (rtrim_trim t)

/-- The merged base is one of the two bases or empty. -/
theorem mergedBase_cases (eb nb : Str) :
    mergedBase eb nb = eb ∨ mergedBase eb nb = nb ∨ mergedBase eb nb = [] := by
  cases eb with
  | nil =>
    cases nb with
    | nil => exact Or.inr (Or.inr rfl)
    | cons d ds => exact Or.inr (Or.inl rfl)
  | cons c cs =>
    cases nb with
    | nil => exact Or.inl rfl
    | cons d ds =>
      have e : mergedBase (c :: cs) (d :: ds) =
          (if (d :: ds).length > (c :: cs).length then d :: ds
           else c :: cs) := rfl
      rw [e]
      split
      · exact Or.inr (Or.inl rfl)
      · exact Or.inl rfl

/-- The merged base of two split-title bases inherits their invariants. -/
theorem mergedBase_invariants (ta tb : Str) :
    standbyMarker.isPrefixOf
        (mergedBase (splitTitleStatuses ta).2 (splitTitleStatuses tb).2) =
      false ∧
    ticketedMarker.isPrefixOf
        (mergedBase (splitTitleStatuses ta).2 (splitTitleStatuses tb).2) =
      false ∧
    ltrim (mergedBase (splitTitleStatuses ta).2 (splitTitleStatuses tb).2) =
      mergedBase (splitTitleStatuses ta).2 (splitTitleStatuses tb).2 ∧
    rtrim (mergedBase (splitTitleStatuses ta).2 (splitTitleStatuses tb).2) =
      mergedBase (splitTitleStatuses ta).2 (splitTitleStatuses tb).2 := by
  have ha := splitBase_invariants ta
  have hb := splitBase_invariants tb
  rcases mergedBase_cases (splitTitleStatuses ta).2 (splitTitleStatuses tb).2
    with h | h | h <;> rw [h]
  · exact ha
  · exact hb
  · exact ⟨rfl, rfl, rfl, rfl⟩

/-- A list is a prefix of itself followed by anything. -/
theorem sb_pfx_append (x : Str) :
    standbyMarker.isPrefixOf (standbyMarker ++ x) = true :=
  List.isPrefixOf_iff_prefix.mpr (List.prefix_append _ _)

/-- The ticketed marker is a prefix of itself followed by anything. -/
theorem tk_pfx_append (x : Str) :
    ticketedMarker.isPrefixOf (ticketedMarker ++ x) = true :=
  List.isPrefixOf_iff_prefix.mpr (List.prefix_append _ _)

/-- The standby marker never begins a string headed by the ticketed marker
(the two markers differ at their third character). -/
theorem sb_not_pfx_tk_append (x : Str) :
    standbyMarker.isPrefixOf (ticketedMarker ++ x) = false := rfl

/-- One loop step consumes a leading standby marker and the following
space. -/
theorem splitLoopGo_consume_sb (fuel : Nat) (y : Str) :
    splitLoopGo (fuel + 1) (standbyMarker ++ ' ' :: y) =
      (standbyMarker :: (splitLoopGo fuel (ltrim y)).1,
       (splitLoopGo fuel (ltrim y)).2) := by
  have hsp : isSpaceChar ' ' = true := rfl
  simp [splitLoopGo, sb_pfx_append, List.drop_left, ltrim,
    List.dropWhile_cons, hsp]

/-- One loop step consumes a leading ticketed marker and the following
space. -/
theorem splitLoopGo_consume_tk (fuel : Nat) (y : Str) :
    splitLoopGo (fuel + 1) (ticketedMarker ++ ' ' :: y) =
      (ticketedMarker :: (splitLoopGo fuel (ltrim y)).1,
       (splitLoopGo fuel (ltrim y)).2) := by
  have hsp : isSpaceChar ' ' = true := rfl
  simp [splitLoopGo, sb_not_pfx_tk_append, tk_pfx_append, List.drop_left,
    ltrim, List.dropWhile_cons, hsp]

/-- The loop stops on a string that begins with no marker. -/
theorem splitLoopGo_stop (fuel : Nat) (r : Str)
    (h1 : standbyMarker.isPrefixOf r = false)
    (h2 : ticketedMarker.isPrefixOf r = false) :
    splitLoopGo fuel r = ([], r) := by
  cases fuel <;> simp [splitLoopGo, h1, h2]

/-- Consuming one standby marker over a marker-free tail. -/
theorem splitLoopGo_of_marker_sb (fuel : Nat) (mb : Str)
    (h1 : standbyMarker.isPrefixOf mb = false)
    (h2 : ticketedMarker.isPrefixOf mb = false) (hl : ltrim mb = mb) :
    splitLoopGo (fuel + 1) (standbyMarker ++ ' ' :: mb) =
      ([standbyMarker], mb) := by
  rw [splitLoopGo_consume_sb, hl, splitLoopGo_stop fuel mb h1 h2]

/-- Consuming one ticketed marker over a marker-free tail. -/
theorem splitLoopGo_of_marker_tk (fuel : Nat) (mb : Str)
    (h1 : standbyMarker.isPrefixOf mb = false)
    (h2 : ticketedMarker.isPrefixOf mb = false) (hl : ltrim mb = mb) :
    splitLoopGo (fuel + 1) (ticketedMarker ++ ' ' :: mb) =
      ([ticketedMarker], mb) := by
  rw [splitLoopGo_consume_tk, hl, splitLoopGo_stop fuel mb h1 h2]

/-- Consuming both markers in canonical order over a marker-free tail. -/
theorem splitLoopGo_of_two_markers (fuel : Nat) (mb : Str)
    (h1 : standbyMarker.isPrefixOf mb = false)
    (h2 : ticketedMarker.isPrefixOf mb = false) (hl : ltrim mb = mb) :
    splitLoopGo (fuel + 2) (standbyMarker ++ ' ' ::
        (ticketedMarker ++ ' ' :: mb)) =
      ([standbyMarker, ticketedMarker], mb) := by
  have hd : isSpaceChar 'ð' = false := rfl
  have he : ticketedMarker ++ ' ' :: mb =
      'ð' :: ('Ÿ' :: 'Ž' :: 'Ÿ' :: 'ï' :: '¸' :: ' ' :: mb) := rfl
  rw [show fuel + 2 = (fuel + 1) + 1 from rfl, splitLoopGo_consume_sb]
  rw [he, ltrim_cons_of_nonspace hd, ← he]
  rw [splitLoopGo_of_marker_tk fuel mb h1 h2 hl]

/-- Appending onto a non-empty right-strip fixed point is right-strip
fixed. -/
theorem rtrim_append_fixed {x mb : Str} (hne : mb ≠ [])
    (hfix : rtrim mb = mb) : rtrim (x ++ mb) = x ++ mb := by
  rw [rtrim_fixed_iff] at hfix ⊢
  rw [List.reverse_append]
  rcases ltrim_fixed_head hfix with h | ⟨c, t, hct, hc⟩
  · exact absurd (List.reverse_eq_nil_iff.mp h) hne
  · rw [hct, List.cons_append, ltrim_cons_of_nonspace hc, ← List.cons_append,
      ← hct]

/-- Splitting the canonical recomposition of a non-empty marker list over a
marker-free, strip-fixed base recovers exactly that marker list. -/
theorem split_assembled_statuses (ms : List Str) (mb : Str)
    (hshape : ms = [standbyMarker] ∨ ms = [ticketedMarker] ∨
      ms = [standbyMarker, ticketedMarker])
    (h1 : standbyMarker.isPrefixOf mb = false)
    (h2 : ticketedMarker.isPrefixOf mb = false)
    (hl : ltrim mb = mb) (hr : rtrim mb = mb) :
    (splitTitleStatuses (trim (joinSpace ms ++ ' ' :: mb))).1 = ms := by
  have hd : isSpaceChar 'ð' = false := rfl
  by_cases hmbe : mb = []
  · subst hmbe
    rcases hshape with rfl | rfl | rfl <;> decide
  · have hne : mb ≠ [] := hmbe
    rcases hshape with rfl | rfl | rfl
    · have hform : joinSpace [standbyMarker] ++ ' ' :: mb =
          'ð' :: ('Ÿ' :: '«' :: '·' :: ' ' :: mb) := rfl
      have htr : trim (joinSpace [standbyMarker] ++ ' ' :: mb) =
          joinSpace [standbyMarker] ++ ' ' :: mb := by
        show rtrim (ltrim _) = _
        rw [hform, ltrim_cons_of_nonspace hd, ← hform]
        have hx : joinSpace [standbyMarker] ++ ' ' :: mb =
            (joinSpace [standbyMarker] ++ [' ']) ++ mb := by simp
        rw [hx]
        exact rtrim_append_fixed hne hr
      rw [htr]
      have hnonempty :
          (joinSpace [standbyMarker] ++ ' ' :: mb).isEmpty = false := by
        rw [hform]
        rfl
      unfold splitTitleStatuses
      rw [if_neg (by simp [hnonempty]), htr]
      unfold splitLoop
      have hlen : (joinSpace [standbyMarker] ++ ' ' :: mb).length =
          (mb.length + 4) + 1 := by
        simp [joinSpace, List.intercalate, standbyMarker]
        try omega
      rw [hlen]
      have hj : joinSpace [standbyMarker] = standbyMarker := rfl
      rw [hj, splitLoopGo_of_marker_sb _ mb h1 h2 hl]
    · have hform : joinSpace [ticketedMarker] ++ ' ' :: mb =
          'ð' :: ('Ÿ' :: 'Ž' :: 'Ÿ' :: 'ï' :: '¸' :: ' ' :: mb) := rfl
      have htr : trim (joinSpace [ticketedMarker] ++ ' ' :: mb) =
          joinSpace [ticketedMarker] ++ ' ' :: mb := by
        show rtrim (ltrim _) = _
        rw [hform, ltrim_cons_of_nonspace hd, ← hform]
        have hx : joinSpace [ticketedMarker] ++ ' ' :: mb =
            (joinSpace [ticketedMarker] ++ [' ']) ++ mb := by simp
        rw [hx]
        exact rtrim_append_fixed hne hr
      rw [htr]
      have hnonempty :
          (joinSpace [ticketedMarker] ++ ' ' :: mb).isEmpty = false := by
        rw [hform]
        rfl
      unfold splitTitleStatuses
      rw [if_neg (by simp [hnonempty]), htr]
      unfold splitLoop
      have hlen : (joinSpace [ticketedMarker] ++ ' ' :: mb).length =
          (mb.length + 6) + 1 := by
        simp [joinSpace, List.intercalate, ticketedMarker]
        try omega
      rw [hlen]
      have hj : joinSpace [ticketedMarker] = ticketedMarker := rfl
      rw [hj, splitLoopGo_of_marker_tk _ mb h1 h2 hl]
    · have hform : joinSpace [standbyMarker, ticketedMarker] ++ ' ' :: mb =
          'ð' :: ('Ÿ' :: '«' :: '·' :: ' ' :: ('ð' :: ('Ÿ' :: 'Ž' :: 'Ÿ' ::
            'ï' :: '¸' :: ' ' :: mb))) := rfl
      have htr : trim (joinSpace [standbyMarker, ticketedMarker] ++
            ' ' :: mb) =
          joinSpace [standbyMarker, ticketedMarker] ++ ' ' :: mb := by
        show rtrim (ltrim _) = _
        rw [hform, ltrim_cons_of_nonspace hd, ← hform]
        have hx : joinSpace [standbyMarker, ticketedMarker] ++ ' ' :: mb =
            (joinSpace [standbyMarker, ticketedMarker] ++ [' ']) ++ mb := by
          simp
        rw [hx]
        exact rtrim_append_fixed hne hr
      rw [htr]
      have hnonempty :
          (joinSpace [standbyMarker, ticketedMarker] ++
            ' ' :: mb).isEmpty = false := by
        rw [hform]
        rfl
      unfold splitTitleStatuses
      rw [if_neg (by simp [hnonempty]), htr]
      unfold splitLoop
      have hlen : (joinSpace [standbyMarker, ticketedMarker] ++
            ' ' :: mb).length = (mb.length + 10) + 2 := by
        simp [joinSpace, List.intercalate, standbyMarker, ticketedMarker]
        try omega
      rw [hlen]
      have hj : joinSpace [standbyMarker, ticketedMarker] ++ ' ' :: mb =
          standbyMarker ++ ' ' :: (ticketedMarker ++ ' ' :: mb) := rfl
      rw [hj, splitLoopGo_of_two_markers _ mb h1 h2 hl]

/-- The merged status list takes one of four concrete shapes. -/
theorem mergedStatuses_shapes (es ns : List Str) :
    mergedStatuses es ns = [] ∨ mergedStatuses es ns = [standbyMarker] ∨
    mergedStatuses es ns = [ticketedMarker] ∨
    mergedStatuses es ns = [standbyMarker, ticketedMarker] := by
  unfold mergedStatuses statusOrder
  by_cases hA1 : standbyMarker ∈ es <;> by_cases hA2 : standbyMarker ∈ ns <;>
    by_cases hB1 : ticketedMarker ∈ es <;>
      by_cases hB2 : ticketedMarker ∈ ns <;>
        simp [List.filter, hA1, hA2, hB1, hB2]

/-- Claim C4: once a status marker is among a record title's leading
markers, merging any further candidate title preserves it: the marker still
appears among the merged title's leading markers. -/
theorem c4_status_marker_monotonic (te tn m : Str)
    (hm : m ∈ (splitTitleStatuses te).1) :
    m ∈ (splitTitleStatuses (mergeTitle te tn)).1 := by
  have hmrk := splitTitleStatuses_mem hm
  have hms : m ∈ mergedStatuses (splitTitleStatuses te).1
      (splitTitleStatuses tn).1 :=
    mem_mergedStatuses (Or.inl hm) hmrk
  have hmsne : mergedStatuses (splitTitleStatuses te).1
      (splitTitleStatuses tn).1 ≠ [] := by
    intro h
    rw [h] at hms
    simp at hms
  rw [mergeTitle_eq_assembled te tn (fun hboth => hmsne hboth.2)]
  have hshape : mergedStatuses (splitTitleStatuses te).1
        (splitTitleStatuses tn).1 = [standbyMarker] ∨
      mergedStatuses (splitTitleStatuses te).1
        (splitTitleStatuses tn).1 = [ticketedMarker] ∨
      mergedStatuses (splitTitleStatuses te).1
        (splitTitleStatuses tn).1 = [standbyMarker, ticketedMarker] := by
    rcases mergedStatuses_shapes (splitTitleStatuses te).1
        (splitTitleStatuses tn).1 with h | h | h | h
    · exact absurd h hmsne
    · exact Or.inl h
    · exact Or.inr (Or.inl h)
    · exact Or.inr (Or.inr h)
  have hinv := mergedBase_invariants te tn
  have hemp : (mergedStatuses (splitTitleStatuses te).1
      (splitTitleStatuses tn).1).isEmpty = false := by
    rcases hshape with h | h | h <;> rw [h] <;> rfl
  rw [if_neg (by simp [hemp])]
  rw [split_assembled_statuses _ _ hshape hinv.1 hinv.2.1 hinv.2.2.1
    hinv.2.2.2]
  exact hms

/-- Witness for C4: a concrete title carrying the standby marker keeps it
after merging with a bare title. -/
theorem c4_status_marker_monotonic_witness :
    standbyMarker ∈ (splitTitleStatuses
      (mergeTitle (standbyMarker ++ ' ' :: S "Film X") (S "Film X longer"))).1 :=
  c4_status_marker_monotonic (standbyMarker ++ ' ' :: S "Film X")
    (S "Film X longer") standbyMarker (by decide)

/-- Counterexample for C7 as stated: with two entries sharing a start
timestamp and titles `b` and `A` (in that input order), the source's sort
leaves them in input order, violating the claimed case-insensitive title
tie-break. -/
theorem c7_sort_counterexample :
    sortEvents
        [mkEv "b" sampleStart "" "" "" "", mkEv "A" sampleStart "" "" "" ""] =
      [mkEv "b" sampleStart "" "" "" "", mkEv "A" sampleStart "" "" "" ""] ∧
    specSorted
        (sortEvents
          [mkEv "b" sampleStart "" "" "" "",
           mkEv "A" sampleStart "" "" "" ""]) = false := by
  decide

end WFF
